import Mathlib

/- Shallow embedding of src/skeleton.py: a small Redis-like key-value server
   consisting of a wire codec (ProtocolHandler), a dispatch loop
   (Server.connection_handler / Server.get_response) and store commands.
   Python byte values and unicode code points are modelled as Nat, byte
   streams and text as List Nat, and Python exceptions as PyErr. -/

namespace MiniKV

/-- The universe of Python values the server can decode, store and encode:
str (unicode code points), bytes, int, the Error namedtuple, None, list,
and the insertion-ordered dict. -/
inductive Value where
  | str (s : List Nat)
  | bytes (b : List Nat)
  | int (n : Int)
  | err (m : List Nat)
  | none
  | list (xs : List Value)
  | dict (es : List (Value × Value))

mutual
def decEqV : (a b : Value) → Decidable (a = b)
  | .str s, .str t =>
    if h : s = t then isTrue (by rw [h]) else isFalse (by intro hh; injection hh; contradiction)
  | .str _, .bytes _ => isFalse (by intro h; exact Value.noConfusion h)
  | .str _, .int _ => isFalse (by intro h; exact Value.noConfusion h)
  | .str _, .err _ => isFalse (by intro h; exact Value.noConfusion h)
  | .str _, .none => isFalse (by intro h; exact Value.noConfusion h)
  | .str _, .list _ => isFalse (by intro h; exact Value.noConfusion h)
  | .str _, .dict _ => isFalse (by intro h; exact Value.noConfusion h)
  | .bytes _, .str _ => isFalse (by intro h; exact Value.noConfusion h)
  | .bytes s, .bytes t =>
    if h : s = t then isTrue (by rw [h]) else isFalse (by intro hh; injection hh; contradiction)
  | .bytes _, .int _ => isFalse (by intro h; exact Value.noConfusion h)
  | .bytes _, .err _ => isFalse (by intro h; exact Value.noConfusion h)
  | .bytes _, .none => isFalse (by intro h; exact Value.noConfusion h)
  | .bytes _, .list _ => isFalse (by intro h; exact Value.noConfusion h)
  | .bytes _, .dict _ => isFalse (by intro h; exact Value.noConfusion h)
  | .int _, .str _ => isFalse (by intro h; exact Value.noConfusion h)
  | .int _, .bytes _ => isFalse (by intro h; exact Value.noConfusion h)
  | .int m, .int n =>
    if h : m = n then isTrue (by rw [h]) else isFalse (by intro hh; injection hh; contradiction)
  | .int _, .err _ => isFalse (by intro h; exact Value.noConfusion h)
  | .int _, .none => isFalse (by intro h; exact Value.noConfusion h)
  | .int _, .list _ => isFalse (by intro h; exact Value.noConfusion h)
  | .int _, .dict _ => isFalse (by intro h; exact Value.noConfusion h)
  | .err _, .str _ => isFalse (by intro h; exact Value.noConfusion h)
  | .err _, .bytes _ => isFalse (by intro h; exact Value.noConfusion h)
  | .err _, .int _ => isFalse (by intro h; exact Value.noConfusion h)
  | .err s, .err t =>
    if h : s = t then isTrue (by rw [h]) else isFalse (by intro hh; injection hh; contradiction)
  | .err _, .none => isFalse (by intro h; exact Value.noConfusion h)
  | .err _, .list _ => isFalse (by intro h; exact Value.noConfusion h)
  | .err _, .dict _ => isFalse (by intro h; exact Value.noConfusion h)
  | .none, .str _ => isFalse (by intro h; exact Value.noConfusion h)
  | .none, .bytes _ => isFalse (by intro h; exact Value.noConfusion h)
  | .none, .int _ => isFalse (by intro h; exact Value.noConfusion h)
  | .none, .err _ => isFalse (by intro h; exact Value.noConfusion h)
  | .none, .none => isTrue rfl
  | .none, .list _ => isFalse (by intro h; exact Value.noConfusion h)
  | .none, .dict _ => isFalse (by intro h; exact Value.noConfusion h)
  | .list _, .str _ => isFalse (by intro h; exact Value.noConfusion h)
  | .list _, .bytes _ => isFalse (by intro h; exact Value.noConfusion h)
  | .list _, .int _ => isFalse (by intro h; exact Value.noConfusion h)
  | .list _, .err _ => isFalse (by intro h; exact Value.noConfusion h)
  | .list _, .none => isFalse (by intro h; exact Value.noConfusion h)
  | .list xs, .list ys =>
    match decEqListV xs ys with
    | isTrue h => isTrue (by rw [h])
    | isFalse h => isFalse (by intro hh; injection hh; contradiction)
  | .list _, .dict _ => isFalse (by intro h; exact Value.noConfusion h)
  | .dict _, .str _ => isFalse (by intro h; exact Value.noConfusion h)
  | .dict _, .bytes _ => isFalse (by intro h; exact Value.noConfusion h)
  | .dict _, .int _ => isFalse (by intro h; exact Value.noConfusion h)
  | .dict _, .err _ => isFalse (by intro h; exact Value.noConfusion h)
  | .dict _, .none => isFalse (by intro h; exact Value.noConfusion h)
  | .dict _, .list _ => isFalse (by intro h; exact Value.noConfusion h)
  | .dict ps, .dict qs =>
    match decEqPairsV ps qs with
    | isTrue h => isTrue (by rw [h])
    | isFalse h => isFalse (by intro hh; injection hh; contradiction)

def decEqListV : (xs ys : List Value) → Decidable (xs = ys)
  | [], [] => isTrue rfl
  | [], _ :: _ => isFalse (by intro h; exact List.noConfusion h)
  | _ :: _, [] => isFalse (by intro h; exact List.noConfusion h)
  | x :: xs, y :: ys =>
    match decEqV x y, decEqListV xs ys with
    | isTrue h1, isTrue h2 => isTrue (by rw [h1, h2])
    | isFalse h1, _ => isFalse (by intro hh; injection hh; contradiction)
    | isTrue _, isFalse h2 => isFalse (by intro hh; injection hh; contradiction)

def decEqPairsV : (ps qs : List (Value × Value)) → Decidable (ps = qs)
  | [], [] => isTrue rfl
  | [], _ :: _ => isFalse (by intro h; exact List.noConfusion h)
  | _ :: _, [] => isFalse (by intro h; exact List.noConfusion h)
  | (k1, v1) :: ps, (k2, v2) :: qs =>
    match decEqV k1 k2, decEqV v1 v2, decEqPairsV ps qs with
    | isTrue h1, isTrue h2, isTrue h3 => isTrue (by rw [h1, h2, h3])
    | isFalse h1, _, _ =>
      isFalse (by intro hh; injection hh with hp hq; rw [Prod.mk.injEq] at hp; exact h1 hp.1)
    | isTrue _, isFalse h2, _ =>
      isFalse (by intro hh; injection hh with hp hq; rw [Prod.mk.injEq] at hp; exact h2 hp.2)
    | isTrue _, isTrue _, isFalse h3 =>
      isFalse (by intro hh; injection hh with hp hq; exact h3 hq)
end

instance : DecidableEq Value := decEqV

/-- Python exceptions the server's code paths can raise. -/
inductive PyErr where
  | disconnect
  | commandError (msg : List Nat)
  | valueError
  | unicodeError
  | typeError
  | attributeError
  | stopIteration
  | fuel
deriving DecidableEq

instance {ε α : Type} [DecidableEq ε] [DecidableEq α] : DecidableEq (Except ε α) :=
  fun a b =>
    match a, b with
    | .ok x, .ok y =>
      if h : x = y then isTrue (by rw [h])
      else isFalse (by intro hh; injection hh; contradiction)
    | .error x, .error y =>
      if h : x = y then isTrue (by rw [h])
      else isFalse (by intro hh; injection hh; contradiction)
    | .ok _, .error _ => isFalse (by intro h; exact Except.noConfusion h)
    | .error _, .ok _ => isFalse (by intro h; exact Except.noConfusion h)

/-- ASCII code points of a literal. -/
def ascii (s : String) : List Nat := s.toList.map (fun c => c.toNat)

/-- socket_file.readline() on a binary stream: up to and including the first
newline byte, or the whole stream if none occurs. -/
def readLine : List Nat → List Nat × List Nat
  | [] => ([], [])
  | c :: cs =>
    if c = 10 then ([10], cs)
    else
      let p := readLine cs
      (c :: p.1, p.2)

/-- line.rstrip(b'\x5cr\x5cn'): drop all trailing CR and LF bytes. -/
def rstripCRLF (l : List Nat) : List Nat :=
  (l.reverse.dropWhile (fun c => c == 13 || c == 10)).reverse

/-- socket_file.read(n): n bytes if available, fewer at end of stream; a
negative count reads everything. -/
def pyRead (n : Int) (s : List Nat) : List Nat × List Nat :=
  if n < 0 then (s, []) else (s.take n.toNat, s.drop n.toNat)

def isDigitB (c : Nat) : Bool := 48 ≤ c && c ≤ 57

def isSpaceB (c : Nat) : Bool := c == 32 || c == 9 || c == 10 || c == 13 || c == 11 || c == 12

def stripWs (l : List Nat) : List Nat :=
  ((l.dropWhile isSpaceB).reverse.dropWhile isSpaceB).reverse

def parseDigits : List Nat → Nat → Option Nat
  | [], acc => some acc
  | c :: cs, acc =>
    if isDigitB c then parseDigits cs (acc * 10 + (c - 48))
    else if c = 95 then
      match cs with
      | d :: cs' => if isDigitB d then parseDigits (d :: cs') acc else Option.none
      | [] => Option.none
    else Option.none

def parseDigitsStart : List Nat → Option Nat
  | [] => Option.none
  | c :: cs => if isDigitB c then parseDigits (c :: cs) 0 else Option.none

def pyIntCore : List Nat → Option Int
  | [] => Option.none
  | c :: cs =>
    if c = 45 then (parseDigitsStart cs).map (fun n => -(n : Int))
    else if c = 43 then (parseDigitsStart cs).map (fun n => (n : Int))
    else (parseDigitsStart (c :: cs)).map (fun n => (n : Int))

/-- Python int(bytes): optional surrounding whitespace, an optional sign, then
decimal digits with single underscores allowed between digits. -/
def pyInt (l : List Nat) : Option Int := pyIntCore (stripWs l)

def natDigitsGo : Nat → Nat → List Nat → List Nat
  | 0, _, acc => acc
  | _ + 1, 0, acc => acc
  | f + 1, n + 1, acc => natDigitsGo f ((n + 1) / 10) ((48 + (n + 1) % 10) :: acc)

/-- Decimal ASCII digits of a natural number. -/
def natDigits (n : Nat) : List Nat := if n = 0 then [48] else natDigitsGo n n []

/-- The bytes of b'%d' applied to a Python int. -/
def intToBytes (n : Int) : List Nat :=
  if n < 0 then 45 :: natDigits n.natAbs else natDigits n.toNat

/-- UTF-8 encoding of one unicode scalar value (str.encode('utf-8') per
character; Python raises on lone surrogates, which wfB rules out). -/
def utf8EncodeChar (c : Nat) : List Nat :=
  if c < 128 then [c]
  else if c < 2048 then [192 + c / 64, 128 + c % 64]
  else if c < 65536 then [224 + c / 4096, 128 + c / 64 % 64, 128 + c % 64]
  else [240 + c / 262144, 128 + c / 4096 % 64, 128 + c / 64 % 64, 128 + c % 64]

def utf8Encode (s : List Nat) : List Nat := (s.map utf8EncodeChar).flatten

/-- A UTF-8 continuation byte. -/
def contB (b : Nat) : Bool := 128 ≤ b && b ≤ 191

mutual
/-- Strict UTF-8 decoding of bytes to code points, as bytes.decode('utf-8'):
truncated, overlong, surrogate and out-of-range sequences are rejected. -/
def utf8Decode : List Nat → Option (List Nat)
  | [] => some []
  | b :: rest =>
    if b ≤ 127 then (utf8Decode rest).map (fun t => b :: t)
    else if 194 ≤ b && b ≤ 223 then utf8Dec2 b rest
    else if 224 ≤ b && b ≤ 239 then utf8Dec3 b rest
    else if 240 ≤ b && b ≤ 244 then utf8Dec4 b rest
    else Option.none

/-- The continuation byte of a 2-byte UTF-8 sequence. -/
def utf8Dec2 (b : Nat) : List Nat → Option (List Nat)
  | b1 :: r =>
    if contB b1 then (utf8Decode r).map (fun t => ((b - 192) * 64 + (b1 - 128)) :: t)
    else Option.none
  | [] => Option.none

/-- The continuation bytes of a 3-byte UTF-8 sequence; the first one has a
narrowed range after 0xE0 (overlong) and 0xED (surrogates). -/
def utf8Dec3 (b : Nat) : List Nat → Option (List Nat)
  | b1 :: b2 :: r =>
    if (if b = 224 then 160 ≤ b1 && b1 ≤ 191
        else if b = 237 then 128 ≤ b1 && b1 ≤ 159
        else contB b1) && contB b2 then
      (utf8Decode r).map (fun t => ((b - 224) * 4096 + (b1 - 128) * 64 + (b2 - 128)) :: t)
    else Option.none
  | _ => Option.none

/-- The continuation bytes of a 4-byte UTF-8 sequence; the first one has a
narrowed range after 0xF0 (overlong) and 0xF4 (beyond U+10FFFF). -/
def utf8Dec4 (b : Nat) : List Nat → Option (List Nat)
  | b1 :: b2 :: b3 :: r =>
    if (if b = 240 then 144 ≤ b1 && b1 ≤ 191
        else if b = 244 then 128 ≤ b1 && b1 ≤ 143
        else contB b1) && contB b2 && contB b3 then
      (utf8Decode r).map
        (fun t => ((b - 240) * 262144 + (b1 - 128) * 4096 + (b2 - 128) * 64 + (b3 - 128)) :: t)
    else Option.none
  | _ => Option.none
end

mutual
/-- ProtocolHandler._write: tag-prefixed framing of a Value.  str and bytes
are framed as $-bulk strings, int as :, Error as -, list as *, dict as %,
None as the null bulk string $-1. -/
def encodeVal : Value → List Nat
  | .str s =>
    let b := utf8Encode s
    36 :: natDigits b.length ++ (13 :: 10 :: (b ++ [13, 10]))
  | .bytes b => 36 :: natDigits b.length ++ (13 :: 10 :: (b ++ [13, 10]))
  | .int n => 58 :: intToBytes n ++ [13, 10]
  | .err m => 45 :: utf8Encode m ++ [13, 10]
  | .none => [36, 45, 49, 13, 10]
  | .list xs => 42 :: natDigits xs.length ++ (13 :: 10 :: encJoin xs)
  | .dict es => 37 :: natDigits es.length ++ (13 :: 10 :: encPairs es)
def encJoin : List Value → List Nat
  | [] => []
  | v :: vs => encodeVal v ++ encJoin vs
def encPairs : List (Value × Value) → List Nat
  | [] => []
  | p :: ps => encodeVal p.1 ++ (encodeVal p.2 ++ encPairs ps)
end

/-- The server's store: a Python dict as an insertion-ordered association
list (reachable states have structurally distinct keys). -/
abbrev Store := List (Value × Value)

/-- Hashable Python values of the decodable universe; list and dict are
unhashable. -/
def pyHashable : Value → Bool
  | .list _ => false
  | .dict _ => false
  | _ => true

/-- d[k] = v on a dict: an existing key keeps its position and identity and
gets the new value; a new key is appended. -/
def dictInsert (d : Store) (k v : Value) : Store :=
  if d.any (fun p => p.1 == k) then
    d.map (fun p => if p.1 == k then (p.1, v) else p)
  else d ++ [(k, v)]

/-- d.get(k, None). -/
def pyGetD (d : Store) (k : Value) : Value :=
  match d.find? (fun p => p.1 == k) with
  | some p => p.2
  | Option.none => .none

/-- The value stored at k, if any. -/
def pyFindV (d : Store) (k : Value) : Option Value :=
  (d.find? (fun p => p.1 == k)).map (fun p => p.2)

/-- Removal of k's entry, as d.pop(k). -/
def pyRemove (d : Store) (k : Value) : Store := d.eraseP (fun p => p.1 == k)

/-- dict(pairs): insert the pairs left to right; an unhashable key raises
TypeError. -/
def dictOfPairsGo : Store → List (Value × Value) → Except PyErr Store
  | d, [] => .ok d
  | d, (k, v) :: ps =>
    if pyHashable k then dictOfPairsGo (dictInsert d k v) ps else .error .typeError

/-- items[0::2]. -/
def evens {α : Type} : List α → List α
  | [] => []
  | [a] => [a]
  | a :: _ :: rest => a :: evens rest

/-- items[1::2]. -/
def odds {α : Type} : List α → List α
  | [] => []
  | _ :: rest => evens rest

mutual
/-- ProtocolHandler.handle_request: read the tag byte and decode one frame.
The fuel argument bounds the recursion depth; decode supplies s.length + 1,
which dominates the depth since every level first consumes bytes. -/
def decodeF : Nat → List Nat → Except PyErr (Value × List Nat)
  | 0, _ => .error .fuel
  | _ + 1, [] => .error .disconnect
  | f + 1, b :: s =>
    if b = 43 then
      let p := readLine s
      match utf8Decode (rstripCRLF p.1) with
      | some t => .ok (.str t, p.2)
      | Option.none => .error .unicodeError
    else if b = 45 then
      let p := readLine s
      match utf8Decode (rstripCRLF p.1) with
      | some t => .ok (.err t, p.2)
      | Option.none => .error .unicodeError
    else if b = 58 then
      let p := readLine s
      match pyInt (rstripCRLF p.1) with
      | some n => .ok (.int n, p.2)
      | Option.none => .error .valueError
    else if b = 36 then
      let p := readLine s
      match pyInt (rstripCRLF p.1) with
      | Option.none => .error .valueError
      | some len =>
        if len = -1 then .ok (.none, p.2)
        else
          let q := pyRead (len + 2) p.2
          let d := q.1.take (q.1.length - 2)
          match utf8Decode d with
          | some t => .ok (.str t, q.2)
          | Option.none => .ok (.bytes d, q.2)
    else if b = 42 then
      let p := readLine s
      match pyInt (rstripCRLF p.1) with
      | Option.none => .error .valueError
      | some n =>
        match decodeListF f n.toNat p.2 with
        | .ok r => .ok (.list r.1, r.2)
        | .error e => .error e
    else if b = 37 then
      let p := readLine s
      match pyInt (rstripCRLF p.1) with
      | Option.none => .error .valueError
      | some n =>
        match decodeListF f (n * 2).toNat p.2 with
        | .ok r =>
          match dictOfPairsGo [] ((evens r.1).zip (odds r.1)) with
          | .ok d => .ok (.dict d, r.2)
          | .error e => .error e
        | .error e => .error e
    else .error (.commandError (ascii ("bad request")))

/-- The element loop of handle_array and handle_dict. -/
def decodeListF : Nat → Nat → List Nat → Except PyErr (List Value × List Nat)
  | _, 0, s => .ok ([], s)
  | 0, _ + 1, _ => .error .fuel
  | f + 1, n + 1, s =>
    match decodeF f s with
    | .error e => .error e
    | .ok p =>
      match decodeListF f n p.2 with
      | .error e => .error e
      | .ok r => .ok (p.1 :: r.1, r.2)
end

/-- Decode one frame from the front of the stream. -/
def decode (s : List Nat) : Except PyErr (Value × List Nat) := decodeF (s.length + 1) s

/-- str.upper / bytes-decoded command names, modelled on the ASCII letters
(the command table only holds ASCII names). -/
def pyUpper (s : List Nat) : List Nat :=
  s.map (fun c => if 97 ≤ c && c ≤ 122 then c - 32 else c)

def splitWsGo : List Nat → List Nat → List (List Nat)
  | [], cur => if cur.isEmpty then [] else [cur.reverse]
  | c :: cs, cur =>
    if isSpaceB c then
      if cur.isEmpty then splitWsGo cs [] else cur.reverse :: splitWsGo cs []
    else splitWsGo cs (c :: cur)

/-- str.split() / bytes.split() with no separator: split on whitespace runs,
producing no empty tokens.  The whitespace set is modelled on the ASCII
whitespace characters (exact for bytes.split; str.split additionally treats
rare non-ASCII unicode spaces as separators). -/
def pySplitWs (l : List Nat) : List (List Nat) := splitWsGo l []

/-- The request-normalisation step of Server.get_response: a list is used as
is, str and bytes are whitespace-split into tokens of their own kind, and any
other value has no .split, so the exception is caught and turned into a
command error. -/
def tokenize : Value → Except PyErr (List Value)
  | .list xs => .ok xs
  | .str s => .ok ((pySplitWs s).map .str)
  | .bytes b => .ok ((pySplitWs b).map .bytes)
  | _ => .error (.commandError (ascii ("Request must be list or simple string")))

/-- The command-name extraction of Server.get_response: bytes are
UTF-8-decoded (an invalid encoding raises UnicodeDecodeError, which is not
caught); a value without .upper raises AttributeError, also not caught. -/
def cmdName : Value → Except PyErr (List Nat)
  | .str s => .ok s
  | .bytes b =>
    match utf8Decode b with
    | some s => .ok s
    | Option.none => .error .unicodeError
  | _ => .error .attributeError

/-- Server.get: one key; the stored value or None. -/
def cmdGet (kv : Store) : List Value → Store × Except PyErr Value
  | [k] => if pyHashable k then (kv, .ok (pyGetD kv k)) else (kv, .error .typeError)
  | _ => (kv, .error .typeError)

/-- Server.set: insert or overwrite, returning 1. -/
def cmdSet (kv : Store) : List Value → Store × Except PyErr Value
  | [k, v] =>
    if pyHashable k then (dictInsert kv k v, .ok (.int 1)) else (kv, .error .typeError)
  | _ => (kv, .error .typeError)

/-- Server.delete: kv.pop(key, None) removes an existing entry whatever its
value holds, but the result 1 is reported only when the popped value is not
None. -/
def cmdDelete (kv : Store) : List Value → Store × Except PyErr Value
  | [k] =>
    if pyHashable k then
      match pyFindV kv k with
      | some v => (pyRemove kv k, .ok (.int (if v = .none then 0 else 1)))
      | Option.none => (kv, .ok (.int 0))
    else (kv, .error .typeError)
  | _ => (kv, .error .typeError)

/-- Server.flush: clear the store, returning the prior entry count. -/
def cmdFlush (kv : Store) : List Value → Store × Except PyErr Value
  | [] => ([], .ok (.int kv.length))
  | _ => (kv, .error .typeError)

/-- The lookup comprehension of Server.mget. -/
def mgetLoop (kv : Store) : List Value → Except PyErr (List Value)
  | [] => .ok []
  | k :: ks =>
    if pyHashable k then (mgetLoop kv ks).map (fun vs => pyGetD kv k :: vs)
    else .error .typeError

/-- Server.mget: arbitrary arity, a list of lookups in input order. -/
def cmdMget (kv : Store) (args : List Value) : Store × Except PyErr Value :=
  match mgetLoop kv args with
  | .ok vs => (kv, .ok (.list vs))
  | .error e => (kv, .error e)

/-- Server.mset's loop: consume key/value pairs left to right, writing each
pair as it is read; a dangling key raises StopIteration after the writes made
so far. -/
def msetLoop (kv : Store) (count : Nat) : List Value → Store × Except PyErr Value
  | [] => (kv, .ok (.int count))
  | [_] => (kv, .error .stopIteration)
  | k :: v :: rest =>
    if pyHashable k then msetLoop (dictInsert kv k v) (count + 1) rest
    else (kv, .error .typeError)

/-- Server.mset. -/
def cmdMset (kv : Store) (args : List Value) : Store × Except PyErr Value :=
  msetLoop kv 0 args

/-- Command-table lookup on the upper-cased name and invocation; an unknown
name raises CommandError naming the offending command. -/
def runCmd (nm : List Nat) (kv : Store) (args : List Value) : Store × Except PyErr Value :=
  if nm = ascii ("GET") then cmdGet kv args
  else if nm = ascii ("SET") then cmdSet kv args
  else if nm = ascii ("DELETE") then cmdDelete kv args
  else if nm = ascii ("FLUSH") then cmdFlush kv args
  else if nm = ascii ("MGET") then cmdMget kv args
  else if nm = ascii ("MSET") then cmdMset kv args
  else (kv, .error (.commandError (ascii ("Command not found: ") ++ nm)))

/-- Server.get_response on an already-decoded request Value, together with
the store it leaves behind (handlers mutate it before any fault). -/
def get_response (kv : Store) (data : Value) : Store × Except PyErr Value :=
  match tokenize data with
  | .error e => (kv, .error e)
  | .ok toks =>
    match toks with
    | [] => (kv, .error (.commandError (ascii ("Missing command"))))
    | c0 :: args =>
      match cmdName c0 with
      | .error e => (kv, .error e)
      | .ok nm => runCmd (pyUpper nm) kv args

/-- Outcome of one iteration of Server.connection_handler's loop.
disconnected: clean end of stream, the loop breaks and nothing is written.
crashed: an uncaught exception propagates; nothing is written, the connection
dies, and the store keeps the mutations already applied.  responded: a
response was encoded and flushed, and the loop continues on the rest. -/
inductive StepResult where
  | disconnected
  | crashed (kv : Store)
  | responded (kv : Store) (out : List Nat) (rest : List Nat)
deriving DecidableEq

/-- One decode → dispatch → respond iteration of connection_handler: only
Disconnect is caught around the decode, and only CommandError around the
dispatch (the latter becomes an Error(...) response). -/
def sessionStep (kv : Store) (s : List Nat) : StepResult :=
  match decode s with
  | .error .disconnect => .disconnected
  | .error _ => .crashed kv
  | .ok pr =>
    match get_response kv pr.1 with
    | (kv', .ok resp) => .responded kv' (encodeVal resp) pr.2
    | (kv', .error (.commandError m)) => .responded kv' (encodeVal (.err m)) pr.2
    | (kv', .error _) => .crashed kv'

/-- Flatten key/value pairs into the flat argument list MSET receives. -/
def flatPairs : List (Value × Value) → List Value
  | [] => []
  | p :: ps => p.1 :: p.2 :: flatPairs ps

/-- Write pairs into the store left to right. -/
def writePairs (kv : Store) (ps : List (Value × Value)) : Store :=
  ps.foldl (fun d p => dictInsert d p.1 p.2) kv

/-- A unicode scalar value (encodable code point: not a surrogate, in range).
-/
def scalarCP (c : Nat) : Bool := c < 55296 || (57344 ≤ c && c < 1114112)

/-- A message survives the line-based framing of the - tag iff it contains no
newline and does not end with a carriage return. -/
def lineSafe (m : List Nat) : Bool := !(m.contains 10) && !(m.getLast? == some 13)

def keysDistinct : List (Value × Value) → Bool
  | [] => true
  | p :: ps => ps.all (fun q => !(q.1 == p.1)) && keysDistinct ps

mutual
/-- Representable values with line-safe error messages: text is unicode
scalars, bytes payloads are byte-valued and not valid UTF-8 (a valid payload
would decode to str), dict keys are hashable and structurally distinct, and
every Error message is additionally line-safe. -/
def wfB : Value → Bool
  | .str s => s.all scalarCP
  | .bytes b => b.all (fun c => c < 256) && (utf8Decode b).isNone
  | .int _ => true
  | .err m => m.all scalarCP && lineSafe m
  | .none => true
  | .list xs => wfList xs
  | .dict es => keysDistinct es && wfPairs es
def wfList : List Value → Bool
  | [] => true
  | v :: vs => wfB v && wfList vs
def wfPairs : List (Value × Value) → Bool
  | [] => true
  | p :: ps => wfB p.1 && pyHashable p.1 && wfB p.2 && wfPairs ps
end

/-- The value handle_string produces from the stripped payload: text when the
bytes decode as UTF-8, raw bytes otherwise. -/
def bulkOfBytes (d : List Nat) : Value :=
  match utf8Decode d with
  | some t => .str t
  | Option.none => .bytes d

/-- The names in Server.get_commands' table. -/
def commandNames : List (List Nat) :=
  [ascii ("GET"), ascii ("SET"), ascii ("DELETE"), ascii ("FLUSH"),
   ascii ("MGET"), ascii ("MSET")]

def digitStep (a c : Nat) : Nat := a * 10 + (c - 48)

/-- The numeric value of a decimal digit string. -/
def digitVal (l : List Nat) : Nat := l.foldl digitStep 0

/- Byte-stream lemmas. -/

lemma readLine_append (l r : List Nat) (h : 10 ∉ l) :
    readLine (l ++ 10 :: r) = (l ++ [10], r) := by
  induction l with
  | nil => simp [readLine]
  | cons c cs ih =>
      have hc : c ≠ 10 := by intro hh; exact h (by simp [hh])
      have hcs : 10 ∉ cs := fun hm => h (List.mem_cons_of_mem _ hm)
      simp [readLine, hc, ih hcs]

lemma lineFrame (l r : List Nat) (h : 10 ∉ l) :
    readLine (l ++ (13 :: 10 :: r)) = (l ++ [13, 10], r) := by
  have h' : 10 ∉ l ++ [13] := by
    intro hm
    rcases List.mem_append.1 hm with hm1 | hm2
    · exact h hm1
    · simp at hm2
  have h2 := readLine_append (l ++ [13]) r h'
  rw [List.append_assoc] at h2
  simpa using h2

lemma dropWhile_eq_self_of_head (p : Nat → Bool) (l : List Nat)
    (h : ∀ c, l.head? = some c → p c = false) : l.dropWhile p = l := by
  cases l with
  | nil => rfl
  | cons a t => simp [List.dropWhile_cons, h a rfl]

lemma rstripFrame (l : List Nat) (h10 : 10 ∉ l) (h13 : l.getLast? ≠ some 13) :
    rstripCRLF (l ++ [13, 10]) = l := by
  unfold rstripCRLF
  have hrev : (l ++ [13, 10]).reverse = 10 :: 13 :: l.reverse := by simp
  rw [hrev]
  have hstep : (10 :: 13 :: l.reverse).dropWhile (fun c => c == 13 || c == 10)
      = l.reverse.dropWhile (fun c => c == 13 || c == 10) := by
    simp [List.dropWhile_cons]
  rw [hstep]
  rw [dropWhile_eq_self_of_head _ _ ?hd, List.reverse_reverse]
  case hd =>
    intro a hrc
    have hlast : l.getLast? = some a := by
      rw [← List.head?_reverse]; exact hrc
    have hmem : a ∈ l := List.mem_of_mem_getLast? hlast
    have ha10 : a ≠ 10 := fun hh => h10 (hh ▸ hmem)
    have ha13 : a ≠ 13 := fun hh => h13 (by rw [hlast, hh])
    simp [ha10, ha13]

/- Decimal digit lemmas. -/

lemma stripWs_eq_self (l : List Nat) (h : ∀ c ∈ l, isSpaceB c = false) : stripWs l = l := by
  unfold stripWs
  have h1 : l.dropWhile isSpaceB = l := by
    apply dropWhile_eq_self_of_head
    intro c hc
    cases l with
    | nil => simp at hc
    | cons a t =>
        simp at hc
        exact hc ▸ h a (by simp)
  rw [h1]
  have h2 : l.reverse.dropWhile isSpaceB = l.reverse := by
    apply dropWhile_eq_self_of_head
    intro c hc
    have : c ∈ l.reverse := by
      cases hl : l.reverse with
      | nil => rw [hl] at hc; simp at hc
      | cons a t => rw [hl] at hc; simp at hc; simp [hl, hc]
    exact h c (by simpa using this)
  rw [h2, List.reverse_reverse]

lemma natDigitsGo_acc : ∀ (f n : Nat) (acc : List Nat), n ≤ f →
    natDigitsGo f n acc = natDigitsGo f n [] ++ acc := by
  intro f
  induction f with
  | zero =>
      intro n acc h
      have : n = 0 := by omega
      subst this
      simp [natDigitsGo]
  | succ f ih =>
      intro n acc h
      cases n with
      | zero => simp [natDigitsGo]
      | succ k =>
          have hk : (k + 1) / 10 ≤ f := by
            have := Nat.div_lt_self (Nat.succ_pos k) (by omega : 1 < 10)
            omega
          show natDigitsGo f ((k + 1) / 10) ((48 + (k + 1) % 10) :: acc)
              = natDigitsGo f ((k + 1) / 10) [48 + (k + 1) % 10] ++ acc
          rw [ih _ _ hk, ih _ ([48 + (k + 1) % 10]) hk]
          simp

lemma natDigitsGo_mem : ∀ (f n : Nat) (acc : List Nat) (c : Nat),
    c ∈ natDigitsGo f n acc → c ∈ acc ∨ (48 ≤ c ∧ c ≤ 57) := by
  intro f
  induction f with
  | zero => intro n acc c h; exact Or.inl h
  | succ f ih =>
      intro n acc c h
      cases n with
      | zero => exact Or.inl h
      | succ k =>
          have h' : c ∈ natDigitsGo f ((k + 1) / 10) ((48 + (k + 1) % 10) :: acc) := h
          rcases ih _ _ _ h' with hm | hd
          · rcases List.mem_cons.1 hm with hh | hh
            · right
              have : (k + 1) % 10 < 10 := Nat.mod_lt _ (by omega)
              omega
            · exact Or.inl hh
          · exact Or.inr hd

lemma natDigits_mem (n c : Nat) (h : c ∈ natDigits n) : 48 ≤ c ∧ c ≤ 57 := by
  unfold natDigits at h
  split at h
  · simp at h; omega
  · rcases natDigitsGo_mem _ _ _ _ h with hm | hd
    · simp at hm
    · exact hd

lemma natDigits_ne_nil (n : Nat) : natDigits n ≠ [] := by
  unfold natDigits
  split
  · simp
  · next hne =>
      cases n with
      | zero => simp at hne
      | succ k =>
          have hk : (k + 1) / 10 ≤ k := by
            have := Nat.div_lt_self (Nat.succ_pos k) (by omega : 1 < 10)
            omega
          show natDigitsGo k ((k + 1) / 10) [48 + (k + 1) % 10] ≠ []
          rw [natDigitsGo_acc _ _ _ hk]
          simp

lemma digitVal_append (l : List Nat) (c : Nat) :
    digitVal (l ++ [c]) = digitVal l * 10 + (c - 48) := by
  unfold digitVal
  rw [List.foldl_append]
  rfl

lemma natDigits_val_aux : ∀ (f n : Nat), n ≤ f → digitVal (natDigitsGo f n []) = n := by
  intro f
  induction f with
  | zero =>
      intro n h
      have : n = 0 := by omega
      subst this
      simp [natDigitsGo, digitVal]
  | succ f ih =>
      intro n h
      cases n with
      | zero => simp [natDigitsGo, digitVal]
      | succ k =>
          have hk : (k + 1) / 10 ≤ f := by
            have := Nat.div_lt_self (Nat.succ_pos k) (by omega : 1 < 10)
            omega
          show digitVal (natDigitsGo f ((k + 1) / 10) [48 + (k + 1) % 10]) = k + 1
          rw [natDigitsGo_acc _ _ _ hk, digitVal_append, ih _ hk]
          omega

lemma natDigits_val (n : Nat) : digitVal (natDigits n) = n := by
  unfold natDigits
  split
  · next h => subst h; simp [digitVal, digitStep]
  · exact natDigits_val_aux n n le_rfl

lemma parseDigits_all (l : List Nat) : ∀ acc, (∀ c ∈ l, isDigitB c = true) →
    parseDigits l acc = some (l.foldl digitStep acc) := by
  induction l with
  | nil => intro acc _; simp [parseDigits]
  | cons c cs ih =>
      intro acc h
      have hc := h c (by simp)
      rw [show parseDigits (c :: cs) acc = parseDigits cs (acc * 10 + (c - 48)) by
        rw [parseDigits.eq_def]
        simp [hc]]
      rw [ih _ (fun d hd => h d (by simp [hd]))]
      rfl

lemma parseStart_natDigits (n : Nat) : parseDigitsStart (natDigits n) = some n := by
  obtain ⟨c, cs, hcons⟩ := List.exists_cons_of_ne_nil (natDigits_ne_nil n)
  have hdig : ∀ d ∈ natDigits n, isDigitB d = true := by
    intro d hd
    have := natDigits_mem n d hd
    simp [isDigitB]
    omega
  have hc : isDigitB c = true := hdig c (by rw [hcons]; simp)
  rw [hcons]
  show (if isDigitB c then parseDigits (c :: cs) 0 else Option.none) = some n
  rw [if_pos hc, ← hcons, parseDigits_all _ _ hdig]
  rw [show (natDigits n).foldl digitStep 0 = digitVal (natDigits n) from rfl, natDigits_val]

lemma pyInt_natDigits (n : Nat) : pyInt (natDigits n) = some (n : Int) := by
  have hmem := natDigits_mem n
  have hns : ∀ c ∈ natDigits n, isSpaceB c = false := by
    intro c hc
    have := hmem c hc
    simp [isSpaceB]
    omega
  unfold pyInt
  rw [stripWs_eq_self _ hns]
  obtain ⟨c, cs, hcons⟩ := List.exists_cons_of_ne_nil (natDigits_ne_nil n)
  have hc : 48 ≤ c ∧ c ≤ 57 := hmem c (by rw [hcons]; simp)
  rw [hcons]
  show (if c = 45 then (parseDigitsStart cs).map (fun n => -(n : Int))
      else if c = 43 then (parseDigitsStart cs).map (fun n => (n : Int))
      else (parseDigitsStart (c :: cs)).map (fun n => (n : Int))) = some (n : Int)
  rw [if_neg (by omega : ¬ c = 45), if_neg (by omega : ¬ c = 43), ← hcons,
    parseStart_natDigits]
  rfl

lemma pyInt_intToBytes (m : Int) : pyInt (intToBytes m) = some m := by
  unfold intToBytes
  split
  · next hneg =>
      have hns : ∀ c ∈ 45 :: natDigits m.natAbs, isSpaceB c = false := by
        intro c hc
        rcases List.mem_cons.1 hc with hh | hh
        · subst hh; rfl
        · have := natDigits_mem _ c hh
          simp [isSpaceB]
          omega
      unfold pyInt
      rw [stripWs_eq_self _ hns]
      rw [show pyIntCore (45 :: natDigits m.natAbs)
          = (parseDigitsStart (natDigits m.natAbs)).map (fun n => -(n : Int)) by
        simp [pyIntCore]]
      rw [parseStart_natDigits]
      show some (-(m.natAbs : Int)) = some m
      congr 1
      omega
  · next hpos =>
      rw [pyInt_natDigits]
      congr 1
      omega

lemma intToBytes_no10 (m : Int) : 10 ∉ intToBytes m := by
  intro h
  unfold intToBytes at h
  split at h
  · rcases List.mem_cons.1 h with hh | hh
    · simp at hh
    · have := natDigits_mem _ _ hh; omega
  · have := natDigits_mem _ _ h; omega

lemma natDigits_no10 (n : Nat) : 10 ∉ natDigits n := by
  intro h
  have := natDigits_mem _ _ h
  omega

lemma intToBytes_last13 (m : Int) : (intToBytes m).getLast? ≠ some 13 := by
  intro h
  have hmem := List.mem_of_mem_getLast? h
  unfold intToBytes at hmem
  split at hmem
  · rcases List.mem_cons.1 hmem with hh | hh
    · simp at hh
    · have := natDigits_mem _ _ hh; omega
  · have := natDigits_mem _ _ hmem; omega

lemma natDigits_last13 (n : Nat) : (natDigits n).getLast? ≠ some 13 := by
  intro h
  have := natDigits_mem _ _ (List.mem_of_mem_getLast? h)
  omega

lemma natDigits_length_pos (n : Nat) : 1 ≤ (natDigits n).length := by
  have := natDigits_ne_nil n
  cases h : natDigits n with
  | nil => exact absurd h this
  | cons a t => simp

/- UTF-8 lemmas. -/

lemma utf8_char_round1 (c : Nat) (rest : List Nat) (h : c < 128) :
    utf8Decode (utf8EncodeChar c ++ rest) = (utf8Decode rest).map (fun t => c :: t) := by
  rw [show utf8EncodeChar c = [c] by simp [utf8EncodeChar, h]]
  show utf8Decode (c :: rest) = _
  simp only [utf8Decode]
  rw [if_pos (by omega : c ≤ 127)]

lemma utf8_char_round2 (c : Nat) (rest : List Nat) (h1 : 128 ≤ c) (h2 : c < 2048) :
    utf8Decode (utf8EncodeChar c ++ rest) = (utf8Decode rest).map (fun t => c :: t) := by
  rw [show utf8EncodeChar c = [192 + c / 64, 128 + c % 64] by
    simp [utf8EncodeChar, show ¬ c < 128 by omega, h2]]
  show utf8Decode ((192 + c / 64) :: (128 + c % 64) :: rest) = _
  rw [show utf8Decode ((192 + c / 64) :: (128 + c % 64) :: rest)
      = utf8Dec2 (192 + c / 64) ((128 + c % 64) :: rest) by
    simp only [utf8Decode]
    rw [if_neg (by omega : ¬ (192 + c / 64 ≤ 127)),
      if_pos (show (194 ≤ 192 + c / 64 && 192 + c / 64 ≤ 223) = true by simp; omega)]]
  simp only [utf8Dec2]
  rw [if_pos (show contB (128 + c % 64) = true by simp [contB]; omega)]
  rw [show (fun t => ((192 + c / 64 - 192) * 64 + (128 + c % 64 - 128)) :: t)
      = (fun t : List Nat => c :: t) by
    funext t
    rw [show (192 + c / 64 - 192) * 64 + (128 + c % 64 - 128) = c by omega]]

lemma utf8_char_round3 (c : Nat) (rest : List Nat) (h1 : 2048 ≤ c) (h2 : c < 65536)
    (hs : scalarCP c = true) :
    utf8Decode (utf8EncodeChar c ++ rest) = (utf8Decode rest).map (fun t => c :: t) := by
  rw [show utf8EncodeChar c = [224 + c / 4096, 128 + c / 64 % 64, 128 + c % 64] by
    simp [utf8EncodeChar, show ¬ c < 128 by omega, show ¬ c < 2048 by omega, h2]]
  have hscal : c < 55296 ∨ 57344 ≤ c := by
    simp [scalarCP] at hs
    omega
  show utf8Decode ((224 + c / 4096) :: (128 + c / 64 % 64) :: (128 + c % 64) :: rest) = _
  rw [show utf8Decode ((224 + c / 4096) :: (128 + c / 64 % 64) :: (128 + c % 64) :: rest)
      = utf8Dec3 (224 + c / 4096) ((128 + c / 64 % 64) :: (128 + c % 64) :: rest) by
    simp only [utf8Decode]
    rw [if_neg (by omega : ¬ (224 + c / 4096 ≤ 127)),
      if_neg (show ¬ (194 ≤ 224 + c / 4096 && 224 + c / 4096 ≤ 223) = true by simp; omega),
      if_pos (show (224 ≤ 224 + c / 4096 && 224 + c / 4096 ≤ 239) = true by simp; omega)]]
  simp only [utf8Dec3]
  have hcond : ((if 224 + c / 4096 = 224 then 160 ≤ 128 + c / 64 % 64 && 128 + c / 64 % 64 ≤ 191
      else if 224 + c / 4096 = 237 then 128 ≤ 128 + c / 64 % 64 && 128 + c / 64 % 64 ≤ 159
      else contB (128 + c / 64 % 64)) && contB (128 + c % 64)) = true := by
    by_cases hA : c < 4096
    · rw [if_pos (by omega : 224 + c / 4096 = 224)]
      simp [contB]
      omega
    · by_cases hB : c / 4096 = 13
      · have hlt : c < 55296 := by
          rcases hscal with hl | hr
          · exact hl
          · omega
        rw [if_neg (by omega : ¬ 224 + c / 4096 = 224),
          if_pos (by omega : 224 + c / 4096 = 237)]
        simp [contB]
        omega
      · rw [if_neg (by omega : ¬ 224 + c / 4096 = 224),
          if_neg (by omega : ¬ 224 + c / 4096 = 237)]
        simp [contB]
        omega
  rw [if_pos hcond]
  rw [show (fun t => ((224 + c / 4096 - 224) * 4096 + (128 + c / 64 % 64 - 128) * 64
      + (128 + c % 64 - 128)) :: t) = (fun t : List Nat => c :: t) by
    funext t
    rw [show (224 + c / 4096 - 224) * 4096 + (128 + c / 64 % 64 - 128) * 64
      + (128 + c % 64 - 128) = c by omega]]

lemma utf8_char_round4 (c : Nat) (rest : List Nat) (h1 : 65536 ≤ c) (h2 : c < 1114112) :
    utf8Decode (utf8EncodeChar c ++ rest) = (utf8Decode rest).map (fun t => c :: t) := by
  rw [show utf8EncodeChar c
      = [240 + c / 262144, 128 + c / 4096 % 64, 128 + c / 64 % 64, 128 + c % 64] by
    simp [utf8EncodeChar, show ¬ c < 128 by omega, show ¬ c < 2048 by omega,
      show ¬ c < 65536 by omega]]
  show utf8Decode
      ((240 + c / 262144) :: (128 + c / 4096 % 64) :: (128 + c / 64 % 64) :: (128 + c % 64)
        :: rest) = _
  rw [show utf8Decode ((240 + c / 262144) :: (128 + c / 4096 % 64) :: (128 + c / 64 % 64)
        :: (128 + c % 64) :: rest)
      = utf8Dec4 (240 + c / 262144)
          ((128 + c / 4096 % 64) :: (128 + c / 64 % 64) :: (128 + c % 64) :: rest) by
    simp only [utf8Decode]
    rw [if_neg (by omega : ¬ (240 + c / 262144 ≤ 127)),
      if_neg (show ¬ (194 ≤ 240 + c / 262144 && 240 + c / 262144 ≤ 223) = true by simp; omega),
      if_neg (show ¬ (224 ≤ 240 + c / 262144 && 240 + c / 262144 ≤ 239) = true by simp; omega),
      if_pos (show (240 ≤ 240 + c / 262144 && 240 + c / 262144 ≤ 244) = true by simp; omega)]]
  simp only [utf8Dec4]
  have hcond : ((if 240 + c / 262144 = 240
        then 144 ≤ 128 + c / 4096 % 64 && 128 + c / 4096 % 64 ≤ 191
      else if 240 + c / 262144 = 244
        then 128 ≤ 128 + c / 4096 % 64 && 128 + c / 4096 % 64 ≤ 143
      else contB (128 + c / 4096 % 64))
      && contB (128 + c / 64 % 64) && contB (128 + c % 64)) = true := by
    by_cases hA : c < 262144
    · rw [if_pos (by omega : 240 + c / 262144 = 240)]
      simp [contB]
      omega
    · by_cases hB : c / 262144 = 4
      · rw [if_neg (by omega : ¬ 240 + c / 262144 = 240),
          if_pos (by omega : 240 + c / 262144 = 244)]
        simp [contB]
        omega
      · rw [if_neg (by omega : ¬ 240 + c / 262144 = 240),
          if_neg (by omega : ¬ 240 + c / 262144 = 244)]
        simp [contB]
        omega
  rw [if_pos hcond]
  rw [show (fun t => ((240 + c / 262144 - 240) * 262144 + (128 + c / 4096 % 64 - 128) * 4096
      + (128 + c / 64 % 64 - 128) * 64 + (128 + c % 64 - 128)) :: t)
      = (fun t : List Nat => c :: t) by
    funext t
    rw [show (240 + c / 262144 - 240) * 262144 + (128 + c / 4096 % 64 - 128) * 4096
      + (128 + c / 64 % 64 - 128) * 64 + (128 + c % 64 - 128) = c by omega]]

lemma utf8_char_round (c : Nat) (rest : List Nat) (hs : scalarCP c = true) :
    utf8Decode (utf8EncodeChar c ++ rest) = (utf8Decode rest).map (fun t => c :: t) := by
  have hc : c < 1114112 := by
    simp [scalarCP] at hs
    omega
  by_cases h1 : c < 128
  · exact utf8_char_round1 c rest h1
  · by_cases h2 : c < 2048
    · exact utf8_char_round2 c rest (by omega) h2
    · by_cases h3 : c < 65536
      · exact utf8_char_round3 c rest (by omega) h3 hs
      · exact utf8_char_round4 c rest (by omega) hc

lemma utf8_round (s : List Nat) (h : ∀ c ∈ s, scalarCP c = true) :
    utf8Decode (utf8Encode s) = some s := by
  induction s with
  | nil => rfl
  | cons c t ih =>
      rw [show utf8Encode (c :: t) = utf8EncodeChar c ++ utf8Encode t by simp [utf8Encode]]
      rw [utf8_char_round c _ (h c (by simp)), ih (fun d hd => h d (by simp [hd]))]
      rfl

lemma utf8Char_cases (c x : Nat) (hx : x ∈ utf8EncodeChar c) : x = c ∨ 128 ≤ x := by
  unfold utf8EncodeChar at hx
  split at hx
  · simp at hx
    exact Or.inl hx
  · split at hx
    · simp at hx
      rcases hx with rfl | rfl
      · right; omega
      · right; omega
    · split at hx
      · simp at hx
        rcases hx with rfl | rfl | rfl
        · right; omega
        · right; omega
        · right; omega
      · simp at hx
        rcases hx with rfl | rfl | rfl | rfl
        · right; omega
        · right; omega
        · right; omega
        · right; omega

lemma utf8Char_ne_nil (c : Nat) : utf8EncodeChar c ≠ [] := by
  unfold utf8EncodeChar
  split
  · simp
  · split
    · simp
    · split
      · simp
      · simp

lemma utf8Encode_ne_nil (m : List Nat) (h : m ≠ []) : utf8Encode m ≠ [] := by
  cases m with
  | nil => exact absurd rfl h
  | cons c t =>
      rw [show utf8Encode (c :: t) = utf8EncodeChar c ++ utf8Encode t by simp [utf8Encode]]
      simp [utf8Char_ne_nil c]

lemma utf8_no10 (m : List Nat) (h : 10 ∉ m) : 10 ∉ utf8Encode m := by
  induction m with
  | nil => simp [utf8Encode]
  | cons c t ih =>
      rw [show utf8Encode (c :: t) = utf8EncodeChar c ++ utf8Encode t by simp [utf8Encode]]
      intro hmem
      rcases List.mem_append.1 hmem with h1 | h2
      · rcases utf8Char_cases c 10 h1 with rfl | hge
        · exact h (by simp)
        · omega
      · exact ih (fun hm => h (by simp [hm])) h2

lemma utf8_getLast13 (m : List Nat) (h10 : 10 ∉ m) (h13 : m.getLast? ≠ some 13) :
    (utf8Encode m).getLast? ≠ some 13 := by
  induction m with
  | nil => simp [utf8Encode]
  | cons c t ih =>
      rw [show utf8Encode (c :: t) = utf8EncodeChar c ++ utf8Encode t by simp [utf8Encode]]
      cases ht : t with
      | nil =>
          subst ht
          rw [show utf8Encode ([] : List Nat) = [] from rfl, List.append_nil]
          intro hlast
          have hmem := List.mem_of_mem_getLast? hlast
          rcases utf8Char_cases c 13 hmem with rfl | hge
          · exact h13 (by simp)
          · omega
      | cons d t' =>
          subst ht
          rw [List.getLast?_append_of_ne_nil _ (utf8Encode_ne_nil _ (by simp))]
          apply ih
          · intro hm
            exact h10 (by simp [hm])
          · intro hl
            apply h13
            rw [show (c :: d :: t').getLast? = (d :: t').getLast? from
              List.getLast?_append_of_ne_nil [c] (by simp)]
            exact hl

/- Structural lemmas about the encoder and the wellformedness predicate. -/

lemma encodeVal_length_pos (v : Value) : 1 ≤ (encodeVal v).length := by
  cases v <;> simp [encodeVal]

lemma wfList_mem : ∀ (xs : List Value), wfList xs = true → ∀ u ∈ xs, wfB u = true := by
  intro xs
  induction xs with
  | nil => intro _ u hu; simp at hu
  | cons v vs ih =>
      intro h u hu
      rw [show wfList (v :: vs) = (wfB v && wfList vs) from rfl, Bool.and_eq_true] at h
      rcases List.mem_cons.1 hu with rfl | hm
      · exact h.1
      · exact ih h.2 u hm

lemma wfPairs_mem : ∀ (es : List (Value × Value)), wfPairs es = true →
    ∀ p ∈ es, wfB p.1 = true ∧ pyHashable p.1 = true ∧ wfB p.2 = true := by
  intro es
  induction es with
  | nil => intro _ p hp; simp at hp
  | cons q qs ih =>
      intro h p hp
      rw [show wfPairs (q :: qs) = (wfB q.1 && pyHashable q.1 && wfB q.2 && wfPairs qs)
        from rfl] at h
      simp only [Bool.and_eq_true] at h
      rcases List.mem_cons.1 hp with rfl | hm
      · exact ⟨h.1.1.1, h.1.1.2, h.1.2⟩
      · exact ih h.2 p hm

lemma flatPairs_length (es : List (Value × Value)) : (flatPairs es).length = 2 * es.length := by
  induction es with
  | nil => rfl
  | cons p ps ih => simp [flatPairs, ih]; omega

lemma encJoin_flatPairs (es : List (Value × Value)) : encJoin (flatPairs es) = encPairs es := by
  induction es with
  | nil => rfl
  | cons p ps ih => simp [flatPairs, encJoin, encPairs, ih]

lemma flatPairs_mem (es : List (Value × Value)) (u : Value) (hu : u ∈ flatPairs es) :
    ∃ p ∈ es, u = p.1 ∨ u = p.2 := by
  induction es with
  | nil => simp [flatPairs] at hu
  | cons p ps ih =>
      rw [show flatPairs (p :: ps) = p.1 :: p.2 :: flatPairs ps from rfl] at hu
      rcases List.mem_cons.1 hu with rfl | hu'
      · exact ⟨p, by simp, Or.inl rfl⟩
      · rcases List.mem_cons.1 hu' with rfl | hu''
        · exact ⟨p, by simp, Or.inr rfl⟩
        · obtain ⟨q, hq, hor⟩ := ih hu''
          exact ⟨q, by simp [hq], hor⟩

lemma evens_cons_flat : ∀ (ps : List (Value × Value)) (x : Value),
    evens (x :: flatPairs ps) = x :: ps.map Prod.snd := by
  intro ps
  induction ps with
  | nil => intro x; rfl
  | cons q qs ih =>
      intro x
      rw [show flatPairs (q :: qs) = q.1 :: q.2 :: flatPairs qs from rfl]
      rw [show evens (x :: q.1 :: q.2 :: flatPairs qs) = x :: evens (q.2 :: flatPairs qs)
        from rfl]
      rw [ih q.2]
      rfl

lemma evens_flatPairs : ∀ (es : List (Value × Value)),
    evens (flatPairs es) = es.map Prod.fst := by
  intro es
  induction es with
  | nil => rfl
  | cons p ps ih =>
      rw [show flatPairs (p :: ps) = p.1 :: p.2 :: flatPairs ps from rfl]
      rw [show evens (p.1 :: p.2 :: flatPairs ps) = p.1 :: evens (flatPairs ps) from rfl]
      rw [ih]
      rfl

lemma odds_flatPairs : ∀ (es : List (Value × Value)),
    odds (flatPairs es) = es.map Prod.snd := by
  intro es
  cases es with
  | nil => rfl
  | cons p ps =>
      rw [show flatPairs (p :: ps) = p.1 :: p.2 :: flatPairs ps from rfl]
      rw [show odds (p.1 :: p.2 :: flatPairs ps) = evens (p.2 :: flatPairs ps) from rfl]
      rw [evens_cons_flat]
      rfl

lemma zip_fst_snd : ∀ (es : List (Value × Value)),
    (es.map Prod.fst).zip (es.map Prod.snd) = es := by
  intro es
  induction es with
  | nil => rfl
  | cons p ps ih => simp [ih]

lemma dictOfPairsGo_ok : ∀ (es : List (Value × Value)) (d : Store),
    (∀ p ∈ es, pyHashable p.1 = true) → keysDistinct es = true →
    (∀ p ∈ es, ∀ q ∈ d, p.1 ≠ q.1) →
    dictOfPairsGo d es = .ok (d ++ es) := by
  intro es
  induction es with
  | nil => intro d _ _ _; simp [dictOfPairsGo]
  | cons p ps ih =>
      intro d hhash hkd hdisj
      obtain ⟨k, v⟩ := p
      have hh : pyHashable k = true := hhash (k, v) (by simp)
      rw [show dictOfPairsGo d ((k, v) :: ps)
          = if pyHashable k then dictOfPairsGo (dictInsert d k v) ps else .error .typeError
        from rfl]
      rw [if_pos hh]
      have hnew : ¬ d.any (fun q => q.1 == k) = true := by
        intro hany
        obtain ⟨q, hq, hqk⟩ := List.any_eq_true.1 hany
        exact hdisj (k, v) (by simp) q hq (by
          have := eq_of_beq hqk
          simp [this])
      have hins : dictInsert d k v = d ++ [(k, v)] := by
        unfold dictInsert
        rw [if_neg hnew]
      rw [hins]
      rw [show keysDistinct ((k, v) :: ps)
          = (ps.all (fun q => !(q.1 == (k, v).1)) && keysDistinct ps) from rfl,
        Bool.and_eq_true] at hkd
      obtain ⟨hall, hkd'⟩ := hkd
      rw [ih (d ++ [(k, v)]) (fun q hq => hhash q (by simp [hq])) hkd' ?disj]
      · simp
      case disj =>
        intro q hq r hr
        rcases List.mem_append.1 hr with hrd | hrk
        · exact hdisj q (by simp [hq]) r hrd
        · have : r = (k, v) := by simpa using hrk
          subst this
          have := List.all_eq_true.1 hall q hq
          simp at this
          simpa using this

/- Fuel-indexed decoding of an encoded value. -/

lemma dec_list_aux (F : Nat)
    (ih : ∀ m, m < F → ∀ (v : Value) (rest : List Nat), wfB v = true →
      (encodeVal v).length < m → decodeF m (encodeVal v ++ rest) = .ok (v, rest)) :
    ∀ (vs : List Value) (g : Nat) (rest : List Nat), g ≤ F →
      (∀ u ∈ vs, wfB u = true) → (encJoin vs).length + 1 < g →
      decodeListF g vs.length (encJoin vs ++ rest) = .ok (vs, rest) := by
  intro vs
  induction vs with
  | nil =>
      intro g rest _ _ _
      rw [show encJoin [] = [] from rfl, List.nil_append]
      rw [show ([] : List Value).length = 0 from rfl]
      rw [show decodeListF g 0 rest = .ok ([], rest) by
        cases g <;> rfl]
  | cons v vs' ihv =>
      intro g rest hgF hwf hlen
      obtain ⟨g', rfl⟩ : ∃ g', g = g' + 1 := ⟨g - 1, by omega⟩
      have hv : wfB v = true := hwf v (by simp)
      have hjoin : encJoin (v :: vs') = encodeVal v ++ encJoin vs' := rfl
      rw [hjoin] at hlen
      simp only [List.length_append] at hlen
      have hposv := encodeVal_length_pos v
      have h1 : decodeF g' (encodeVal v ++ (encJoin vs' ++ rest))
          = .ok (v, encJoin vs' ++ rest) :=
        ih g' (by omega) v _ hv (by omega)
      have h2 : decodeListF g' vs'.length (encJoin vs' ++ rest) = .ok (vs', rest) :=
        ihv g' rest (by omega) (fun u hu => hwf u (by simp [hu])) (by omega)
      rw [hjoin, List.append_assoc, List.length_cons]
      rw [show decodeListF (g' + 1) (vs'.length + 1) (encodeVal v ++ (encJoin vs' ++ rest))
          = match decodeF g' (encodeVal v ++ (encJoin vs' ++ rest)) with
            | .error e => .error e
            | .ok p =>
              match decodeListF g' vs'.length p.2 with
              | .error e => .error e
              | .ok r => .ok (p.1 :: r.1, r.2) from rfl]
      rw [h1]
      simp only []
      rw [h2]

lemma takeStrip (d : List Nat) :
    List.take ((d ++ [13, 10]).length - 2) (d ++ [13, 10]) = d := by
  have h : (d ++ [13, 10]).length - 2 = d.length := by simp
  rw [h, List.take_left]

lemma dec_enc : ∀ (f : Nat) (v : Value) (rest : List Nat), wfB v = true →
    (encodeVal v).length < f → decodeF f (encodeVal v ++ rest) = .ok (v, rest) := by
  intro f
  induction f using Nat.strong_induction_on with
  | _ f ih =>
  intro v rest hwf hlen
  obtain ⟨f', rfl⟩ : ∃ f', f = f' + 1 := ⟨f - 1, by have := encodeVal_length_pos v; omega⟩
  cases v with
  | int n =>
      have hline := lineFrame (intToBytes n) rest (intToBytes_no10 n)
      have hstrip := rstripFrame (intToBytes n) (intToBytes_no10 n) (intToBytes_last13 n)
      rw [show encodeVal (.int n) ++ rest = 58 :: (intToBytes n ++ (13 :: 10 :: rest)) by
        simp [encodeVal]]
      simp only [decodeF, eq_false (by decide : ¬ (58 : Nat) = 43),
        eq_false (by decide : ¬ (58 : Nat) = 45), eq_true (rfl : (58 : Nat) = 58),
        if_false, if_true]
      simp only [hline, hstrip, pyInt_intToBytes]
  | str s =>
      rw [show wfB (.str s) = s.all scalarCP from rfl] at hwf
      have hb : utf8Decode (utf8Encode s) = some s :=
        utf8_round s (fun c hc => List.all_eq_true.1 hwf c hc)
      have hline := lineFrame (natDigits (utf8Encode s).length)
        ((utf8Encode s ++ [13, 10]) ++ rest) (natDigits_no10 _)
      have hstrip := rstripFrame (natDigits (utf8Encode s).length)
        (natDigits_no10 _) (natDigits_last13 _)
      rw [show encodeVal (.str s) ++ rest
          = 36 :: (natDigits (utf8Encode s).length
              ++ (13 :: 10 :: ((utf8Encode s ++ [13, 10]) ++ rest))) by
        simp [encodeVal]]
      simp only [decodeF, eq_false (by decide : ¬ (36 : Nat) = 43),
        eq_false (by decide : ¬ (36 : Nat) = 45), eq_false (by decide : ¬ (36 : Nat) = 58),
        eq_true (rfl : (36 : Nat) = 36), if_false, if_true]
      simp only [hline, hstrip, pyInt_natDigits]
      rw [if_neg (by omega : ¬ ((utf8Encode s).length : Int) = -1)]
      simp only [pyRead]
      rw [if_neg (by omega : ¬ ((utf8Encode s).length : Int) + 2 < 0)]
      rw [show (((utf8Encode s).length : Int) + 2).toNat = (utf8Encode s ++ [13, 10]).length by
        simp
        omega]
      rw [List.take_left, List.drop_left]
      dsimp only
      rw [takeStrip, hb]
  | bytes b =>
      rw [show wfB (.bytes b) = (b.all (fun c => c < 256) && (utf8Decode b).isNone) from rfl,
        Bool.and_eq_true] at hwf
      have hb : utf8Decode b = Option.none := Option.isNone_iff_eq_none.1 hwf.2
      have hline := lineFrame (natDigits b.length) ((b ++ [13, 10]) ++ rest)
        (natDigits_no10 _)
      have hstrip := rstripFrame (natDigits b.length) (natDigits_no10 _) (natDigits_last13 _)
      rw [show encodeVal (.bytes b) ++ rest
          = 36 :: (natDigits b.length ++ (13 :: 10 :: ((b ++ [13, 10]) ++ rest))) by
        simp [encodeVal]]
      simp only [decodeF, eq_false (by decide : ¬ (36 : Nat) = 43),
        eq_false (by decide : ¬ (36 : Nat) = 45), eq_false (by decide : ¬ (36 : Nat) = 58),
        eq_true (rfl : (36 : Nat) = 36), if_false, if_true]
      simp only [hline, hstrip, pyInt_natDigits]
      rw [if_neg (by omega : ¬ (b.length : Int) = -1)]
      simp only [pyRead]
      rw [if_neg (by omega : ¬ (b.length : Int) + 2 < 0)]
      rw [show ((b.length : Int) + 2).toNat = (b ++ [13, 10]).length by
        simp
        omega]
      rw [List.take_left, List.drop_left]
      dsimp only
      rw [takeStrip, hb]
  | err m =>
      rw [show wfB (.err m) = (m.all scalarCP && lineSafe m) from rfl,
        Bool.and_eq_true] at hwf
      obtain ⟨hsc, hls⟩ := hwf
      have hls' : 10 ∉ m ∧ m.getLast? ≠ some 13 := by
        simp [lineSafe] at hls
        exact hls
      have hdec : utf8Decode (utf8Encode m) = some m :=
        utf8_round m (fun c hc => List.all_eq_true.1 hsc c hc)
      have hline := lineFrame (utf8Encode m) rest (utf8_no10 m hls'.1)
      have hstrip := rstripFrame (utf8Encode m) (utf8_no10 m hls'.1)
        (utf8_getLast13 m hls'.1 hls'.2)
      rw [show encodeVal (.err m) ++ rest = 45 :: (utf8Encode m ++ (13 :: 10 :: rest)) by
        simp [encodeVal]]
      simp only [decodeF, eq_false (by decide : ¬ (45 : Nat) = 43),
        eq_true (rfl : (45 : Nat) = 45), if_false, if_true]
      simp only [hline, hstrip, hdec]
  | none =>
      have hline := lineFrame [45, 49] rest (by decide)
      have hstrip := rstripFrame [45, 49] (by decide) (by decide)
      rw [show encodeVal Value.none ++ rest = 36 :: ([45, 49] ++ (13 :: 10 :: rest)) from rfl]
      simp only [decodeF, eq_false (by decide : ¬ (36 : Nat) = 43),
        eq_false (by decide : ¬ (36 : Nat) = 45), eq_false (by decide : ¬ (36 : Nat) = 58),
        eq_true (rfl : (36 : Nat) = 36), if_false, if_true]
      simp only [hline, hstrip]
      rw [show pyInt [45, 49] = some (-1) by decide]
      simp
  | list xs =>
      rw [show wfB (.list xs) = wfList xs from rfl] at hwf
      have hall := wfList_mem xs hwf
      have hlen' : (encJoin xs).length + 1 < f' := by
        have h := hlen
        simp [encodeVal] at h
        have hd := natDigits_length_pos xs.length
        omega
      have hline := lineFrame (natDigits xs.length) (encJoin xs ++ rest) (natDigits_no10 _)
      have hstrip := rstripFrame (natDigits xs.length) (natDigits_no10 _) (natDigits_last13 _)
      rw [show encodeVal (.list xs) ++ rest
          = 42 :: (natDigits xs.length ++ (13 :: 10 :: (encJoin xs ++ rest))) by
        simp [encodeVal]]
      simp only [decodeF, eq_false (by decide : ¬ (42 : Nat) = 43),
        eq_false (by decide : ¬ (42 : Nat) = 45), eq_false (by decide : ¬ (42 : Nat) = 58),
        eq_false (by decide : ¬ (42 : Nat) = 36), eq_true (rfl : (42 : Nat) = 42),
        if_false, if_true]
      simp only [hline, hstrip, pyInt_natDigits]
      rw [show ((xs.length : Int)).toNat = xs.length by omega]
      rw [dec_list_aux (f' + 1) ih xs f' rest (by omega) hall hlen']
  | dict es =>
      rw [show wfB (.dict es) = (keysDistinct es && wfPairs es) from rfl,
        Bool.and_eq_true] at hwf
      obtain ⟨hkd, hwp⟩ := hwf
      have hmem := wfPairs_mem es hwp
      have hallflat : ∀ u ∈ flatPairs es, wfB u = true := by
        intro u hu
        obtain ⟨p, hp, hor⟩ := flatPairs_mem es u hu
        rcases hor with rfl | rfl
        · exact (hmem p hp).1
        · exact (hmem p hp).2.2
      have hhash : ∀ p ∈ es, pyHashable p.1 = true := fun p hp => (hmem p hp).2.1
      have hlen' : (encJoin (flatPairs es)).length + 1 < f' := by
        have h := hlen
        simp [encodeVal] at h
        have h2 : (encJoin (flatPairs es)).length = (encPairs es).length := by
          rw [encJoin_flatPairs]
        have hd := natDigits_length_pos es.length
        omega
      have hline := lineFrame (natDigits es.length) (encJoin (flatPairs es) ++ rest)
        (natDigits_no10 _)
      have hstrip := rstripFrame (natDigits es.length) (natDigits_no10 _) (natDigits_last13 _)
      rw [show encodeVal (.dict es) ++ rest
          = 37 :: (natDigits es.length ++ (13 :: 10 :: (encJoin (flatPairs es) ++ rest))) by
        simp [encodeVal, encJoin_flatPairs]]
      simp only [decodeF, eq_false (by decide : ¬ (37 : Nat) = 43),
        eq_false (by decide : ¬ (37 : Nat) = 45), eq_false (by decide : ¬ (37 : Nat) = 58),
        eq_false (by decide : ¬ (37 : Nat) = 36), eq_false (by decide : ¬ (37 : Nat) = 42),
        eq_true (rfl : (37 : Nat) = 37), if_false, if_true]
      simp only [hline, hstrip, pyInt_natDigits]
      rw [show (((es.length : Int)) * 2).toNat = (flatPairs es).length by
        rw [flatPairs_length]
        omega]
      rw [dec_list_aux (f' + 1) ih (flatPairs es) f' rest (by omega) hallflat hlen']
      simp only [evens_flatPairs, odds_flatPairs, zip_fst_snd]
      rw [dictOfPairsGo_ok es [] hhash hkd (by intro p _ q hq; simp at hq)]
      simp

/- Decoding wrapper and session lemmas. -/

lemma decode_encode (v : Value) (rest : List Nat) (h : wfB v = true) :
    decode (encodeVal v ++ rest) = .ok (v, rest) := by
  unfold decode
  apply dec_enc _ _ _ h
  simp
  omega

lemma sessionStep_responded_ok (kv kv' : Store) (s : List Nat) (data resp : Value)
    (rest : List Nat) (h1 : decode s = .ok (data, rest))
    (h2 : get_response kv data = (kv', .ok resp)) :
    sessionStep kv s = .responded kv' (encodeVal resp) rest := by
  unfold sessionStep
  rw [h1]
  dsimp only
  rw [h2]

lemma sessionStep_responded_err (kv kv' : Store) (s : List Nat) (data : Value)
    (m rest : List Nat) (h1 : decode s = .ok (data, rest))
    (h2 : get_response kv data = (kv', .error (.commandError m))) :
    sessionStep kv s = .responded kv' (encodeVal (.err m)) rest := by
  unfold sessionStep
  rw [h1]
  dsimp only
  rw [h2]

lemma sessionStep_crashed_decode (kv : Store) (s : List Nat) (e : PyErr)
    (h : decode s = .error e) (he : e ≠ .disconnect) :
    sessionStep kv s = .crashed kv := by
  unfold sessionStep
  rw [h]
  cases e with
  | disconnect => exact absurd rfl he
  | commandError m => rfl
  | valueError => rfl
  | unicodeError => rfl
  | typeError => rfl
  | attributeError => rfl
  | stopIteration => rfl
  | fuel => rfl

lemma sessionStep_crashed_dispatch (kv kv' : Store) (s : List Nat) (data : Value)
    (rest : List Nat) (e : PyErr) (h1 : decode s = .ok (data, rest))
    (h2 : get_response kv data = (kv', .error e)) (he : ∀ m, e ≠ .commandError m) :
    sessionStep kv s = .crashed kv' := by
  unfold sessionStep
  rw [h1]
  dsimp only
  rw [h2]
  cases e with
  | disconnect => rfl
  | commandError m => exact absurd rfl (he m)
  | valueError => rfl
  | unicodeError => rfl
  | typeError => rfl
  | attributeError => rfl
  | stopIteration => rfl
  | fuel => rfl

lemma get_response_tokens (kv : Store) (data : Value) (c0 : Value) (args : List Value)
    (nm : List Nat) (h : tokenize data = .ok (c0 :: args)) (hnm : cmdName c0 = .ok nm) :
    get_response kv data = runCmd (pyUpper nm) kv args := by
  unfold get_response
  rw [h]
  dsimp only
  rw [hnm]

lemma runCmd_not_found (nm : List Nat) (kv : Store) (args : List Value)
    (h : nm ∉ commandNames) :
    runCmd nm kv args = (kv, .error (.commandError (ascii ("Command not found: ") ++ nm))) := by
  have h' : ¬ nm = ascii ("GET") ∧ ¬ nm = ascii ("SET") ∧ ¬ nm = ascii ("DELETE")
      ∧ ¬ nm = ascii ("FLUSH") ∧ ¬ nm = ascii ("MGET") ∧ ¬ nm = ascii ("MSET") := by
    simpa [commandNames] using h
  unfold runCmd
  rw [if_neg h'.1, if_neg h'.2.1, if_neg h'.2.2.1, if_neg h'.2.2.2.1, if_neg h'.2.2.2.2.1,
    if_neg h'.2.2.2.2.2]

lemma runCmd_mset (kv : Store) (args : List Value) :
    runCmd (ascii ("MSET")) kv args = cmdMset kv args := by
  unfold runCmd
  rw [if_neg (by decide), if_neg (by decide), if_neg (by decide), if_neg (by decide),
    if_neg (by decide), if_pos rfl]

/- Store-command lemmas. -/

lemma msetLoop_pairs : ∀ (ps : List (Value × Value)) (kv : Store) (c : Nat),
    (∀ p ∈ ps, pyHashable p.1 = true) →
    msetLoop kv c (flatPairs ps) = (writePairs kv ps, .ok (.int (c + ps.length))) := by
  intro ps
  induction ps with
  | nil => intro kv c _; simp [flatPairs, msetLoop, writePairs]
  | cons p ps' ih =>
      intro kv c hh
      rw [show flatPairs (p :: ps') = p.1 :: p.2 :: flatPairs ps' from rfl]
      rw [show msetLoop kv c (p.1 :: p.2 :: flatPairs ps')
          = if pyHashable p.1 then msetLoop (dictInsert kv p.1 p.2) (c + 1) (flatPairs ps')
            else (kv, .error .typeError) from rfl]
      rw [if_pos (hh p (by simp))]
      rw [ih _ _ (fun q hq => hh q (by simp [hq]))]
      rw [show writePairs kv (p :: ps') = writePairs (dictInsert kv p.1 p.2) ps' from rfl]
      simp only [List.length_cons]
      have hx : ((c + 1 : Nat) : Int) + (ps'.length : Int)
          = ((c : Nat) : Int) + ((ps'.length + 1 : Nat) : Int) := by omega
      rw [hx]

lemma msetLoop_flat_odd : ∀ (ps : List (Value × Value)) (k : Value) (kv : Store) (c : Nat),
    (∀ p ∈ ps, pyHashable p.1 = true) →
    msetLoop kv c (flatPairs ps ++ [k]) = (writePairs kv ps, .error .stopIteration) := by
  intro ps
  induction ps with
  | nil => intro k kv c _; simp [flatPairs, msetLoop, writePairs]
  | cons p ps' ih =>
      intro k kv c hh
      rw [show flatPairs (p :: ps') ++ [k] = p.1 :: p.2 :: (flatPairs ps' ++ [k]) from rfl]
      rw [show msetLoop kv c (p.1 :: p.2 :: (flatPairs ps' ++ [k]))
          = if pyHashable p.1 then msetLoop (dictInsert kv p.1 p.2) (c + 1) (flatPairs ps' ++ [k])
            else (kv, .error .typeError) from rfl]
      rw [if_pos (hh p (by simp))]
      rw [ih k _ _ (fun q hq => hh q (by simp [hq]))]
      rfl

lemma msetLoop_odd : ∀ (n : Nat) (args : List Value) (kv : Store) (c : Nat),
    args.length = n → args.length % 2 = 1 →
    (msetLoop kv c args).2 = .error .stopIteration ∨
      (msetLoop kv c args).2 = .error .typeError := by
  intro n
  induction n using Nat.strong_induction_on with
  | _ n ih =>
  intro args kv c hn hodd
  cases args with
  | nil => simp at hodd
  | cons a t =>
      cases t with
      | nil => left; rfl
      | cons b t' =>
          rw [show msetLoop kv c (a :: b :: t')
              = if pyHashable a then msetLoop (dictInsert kv a b) (c + 1) t'
                else (kv, .error .typeError) from rfl]
          by_cases hh : pyHashable a = true
          · rw [if_pos hh]
            have hlen : t'.length < n := by
              simp at hn
              omega
            have hodd' : t'.length % 2 = 1 := by
              simp at hodd
              omega
            exact ih t'.length hlen t' _ _ rfl hodd'
          · rw [if_neg hh]
            right
            rfl

lemma mgetLoop_ok (kv : Store) : ∀ (ks : List Value), (∀ x ∈ ks, pyHashable x = true) →
    mgetLoop kv ks = .ok (ks.map (pyGetD kv)) := by
  intro ks
  induction ks with
  | nil => intro _; rfl
  | cons k ks' ih =>
      intro hh
      rw [show mgetLoop kv (k :: ks')
          = if pyHashable k then (mgetLoop kv ks').map (fun vs => pyGetD kv k :: vs)
            else .error .typeError from rfl]
      rw [if_pos (hh k (by simp)), ih (fun x hx => hh x (by simp [hx]))]
      rfl

lemma keysDistinct_cons (p : Value × Value) (t : List (Value × Value))
    (h : keysDistinct (p :: t) = true) :
    (∀ q ∈ t, ¬ q.1 = p.1) ∧ keysDistinct t = true := by
  rw [show keysDistinct (p :: t) = (t.all (fun q => !(q.1 == p.1)) && keysDistinct t) from rfl,
    Bool.and_eq_true] at h
  refine ⟨?_, h.2⟩
  intro q hq hqp
  have := List.all_eq_true.1 h.1 q hq
  simp [hqp] at this

lemma pyFindV_pyRemove (k : Value) : ∀ (kv : Store), keysDistinct kv = true →
    pyFindV (pyRemove kv k) k = Option.none := by
  intro kv
  induction kv with
  | nil => intro _; rfl
  | cons p t ih =>
      intro hkd
      obtain ⟨hall, hkd'⟩ := keysDistinct_cons p t hkd
      unfold pyRemove
      rw [List.eraseP_cons]
      by_cases hpk : (p.1 == k) = true
      · simp only [hpk, cond_true]
        have hk : p.1 = k := eq_of_beq hpk
        unfold pyFindV
        rw [List.find?_eq_none.2]
        · rfl
        · intro q hq
          have := hall q hq
          rw [hk] at this
          simp [this]
      · have hpk' : (p.1 == k) = false := by simpa using hpk
        simp only [hpk', cond_false]
        unfold pyFindV at ih ⊢
        rw [List.find?_cons, hpk']
        exact ih hkd'

lemma dictOfPairsGo_fold : ∀ (es : List (Value × Value)) (d : Store),
    (∀ p ∈ es, pyHashable p.1 = true) → dictOfPairsGo d es = .ok (writePairs d es) := by
  intro es
  induction es with
  | nil => intro d _; rfl
  | cons p ps ih =>
      intro d hh
      obtain ⟨k, v⟩ := p
      rw [show dictOfPairsGo d ((k, v) :: ps)
          = if pyHashable k then dictOfPairsGo (dictInsert d k v) ps else .error .typeError
        from rfl]
      rw [if_pos (hh (k, v) (by simp))]
      rw [ih _ (fun q hq => hh q (by simp [hq]))]
      rfl

lemma pyGetD_of_find_none (d : Store) (k : Value) (h : pyFindV d k = Option.none) :
    pyGetD d k = Value.none := by
  unfold pyFindV at h
  unfold pyGetD
  cases hf : d.find? (fun p => p.1 == k) with
  | none => rfl
  | some p => rw [hf] at h; simp at h

/- Claim theorems. -/

/-- Claim C1, counterexample: the round trip fails as stated.  An ErrorValue
whose message is a bare newline is representable, but - framing is
line-based: encode(Error((newline))) decodes to Error(empty), a different
value (with two stray bytes left in the stream). -/
theorem c1_roundtrip_counterexample :
    decode (encodeVal (Value.err [10])) = .ok (Value.err [], [13, 10]) ∧
      Value.err [] ≠ Value.err [10] :=
  ⟨by decide, by decide⟩

/-- Claim C1 (amended): decode(encode(v)) = v for every representable Value
(text made of unicode scalars, bytes payloads not valid UTF-8, dict keys
hashable and distinct) whose ErrorValue messages additionally contain no LF
and do not end with CR (wfB).  The stream is consumed exactly. -/
theorem c1_roundtrip_amended (v : Value) (h : wfB v = true) :
    decode (encodeVal v) = .ok (v, []) := by
  have h2 := decode_encode v [] h
  simpa using h2

/-- Witness for C1 at a concrete nested value. -/
theorem c1_roundtrip_amended_witness :
    wfB (Value.dict [(Value.str [97], Value.int (-3)), (Value.int 2, Value.bytes [255])])
        = true ∧
      decode (encodeVal (Value.dict [(Value.str [97], Value.int (-3)),
          (Value.int 2, Value.bytes [255])]))
        = .ok (Value.dict [(Value.str [97], Value.int (-3)),
            (Value.int 2, Value.bytes [255])], []) :=
  ⟨by decide, c1_roundtrip_amended _ (by decide)⟩

/-- Claim C2, counterexample: handle_dict builds a Python dict, so the two
supplied pairs (1,2) and (1,3) with the duplicate key 1 are deduplicated to
the single pair (1,3) instead of remaining as supplied. -/
theorem c2_map_counterexample :
    decode [37, 50, 13, 10, 58, 49, 13, 10, 58, 50, 13, 10, 58, 49, 13, 10, 58, 51, 13, 10]
        = .ok (.dict [(Value.int 1, Value.int 3)], []) ∧
      Value.dict [(Value.int 1, Value.int 3)]
        ≠ Value.dict [(Value.int 1, Value.int 2), (Value.int 1, Value.int 3)] :=
  ⟨by decide, by decide⟩

/-- Claim C2 (amended): decoding a well-formed %-frame recursively decodes
2×count Values and builds the mapping by inserting the pairs in order;
insertion order is preserved, but a duplicate key is deduplicated as by dict
construction: it keeps its first position and takes the last value. -/
theorem c2_map_amended (ps : List (Value × Value)) (rest : List Nat)
    (h : ∀ p ∈ ps, wfB p.1 = true ∧ pyHashable p.1 = true ∧ wfB p.2 = true) :
    decode (37 :: (natDigits ps.length ++ (13 :: 10 :: (encPairs ps ++ rest))))
      = .ok (.dict (writePairs [] ps), rest) := by
  have hallflat : ∀ u ∈ flatPairs ps, wfB u = true := by
    intro u hu
    obtain ⟨p, hp, hor⟩ := flatPairs_mem ps u hu
    rcases hor with rfl | rfl
    · exact (h p hp).1
    · exact (h p hp).2.2
  have hhash : ∀ p ∈ ps, pyHashable p.1 = true := fun p hp => (h p hp).2.1
  unfold decode
  simp only [List.length_cons]
  rw [show encPairs ps = encJoin (flatPairs ps) by rw [encJoin_flatPairs]]
  simp only [decodeF, eq_false (by decide : ¬ (37 : Nat) = 43),
    eq_false (by decide : ¬ (37 : Nat) = 45), eq_false (by decide : ¬ (37 : Nat) = 58),
    eq_false (by decide : ¬ (37 : Nat) = 36), eq_false (by decide : ¬ (37 : Nat) = 42),
    eq_true (rfl : (37 : Nat) = 37), if_false, if_true]
  have hline := lineFrame (natDigits ps.length) (encJoin (flatPairs ps) ++ rest)
    (natDigits_no10 _)
  have hstrip := rstripFrame (natDigits ps.length) (natDigits_no10 _) (natDigits_last13 _)
  simp only [hline, hstrip, pyInt_natDigits]
  rw [show (((ps.length : Int)) * 2).toNat = (flatPairs ps).length by
    rw [flatPairs_length]
    omega]
  have hlen' : (encJoin (flatPairs ps)).length + 1
      < (natDigits ps.length ++ (13 :: 10 :: (encJoin (flatPairs ps) ++ rest))).length + 1 := by
    have hd := natDigits_length_pos ps.length
    simp
    omega
  rw [dec_list_aux ((natDigits ps.length
      ++ (13 :: 10 :: (encJoin (flatPairs ps) ++ rest))).length + 1 + 1)
    (fun m _ v r hw hl => dec_enc m v r hw hl) (flatPairs ps) _ rest (by omega) hallflat hlen']
  simp only [evens_flatPairs, odds_flatPairs, zip_fst_snd]
  rw [dictOfPairsGo_fold ps [] hhash]

/-- Witness for C2 at the duplicate-key pair list ((1,2),(1,3)). -/
theorem c2_map_amended_witness :
    (∀ p ∈ [(Value.int 1, Value.int 2), (Value.int 1, Value.int 3)],
        wfB p.1 = true ∧ pyHashable p.1 = true ∧ wfB p.2 = true) ∧
      decode (37 :: (natDigits ([(Value.int 1, Value.int 2),
            (Value.int 1, Value.int 3)] : List (Value × Value)).length
          ++ (13 :: 10 :: (encPairs [(Value.int 1, Value.int 2), (Value.int 1, Value.int 3)]
            ++ []))))
        = .ok (.dict (writePairs [] [(Value.int 1, Value.int 2), (Value.int 1, Value.int 3)]),
            []) :=
  ⟨by decide, c2_map_amended [(Value.int 1, Value.int 2), (Value.int 1, Value.int 3)] []
    (by decide)⟩

/-- Claim C3: a malformed next frame — an unrecognized leading tag byte, or a
non-numeric line where an integer is required, at every tag that requires one
(: integer, $ length, * count, % pair count) — is not caught by the dispatch
loop: the session crashes with no response written (crashed carries no output
and ends the session), whereas a command-error raised during dispatch is
caught and answered with an ErrorValue response on the open connection. -/
theorem c3_malformed_uncaught :
    (∀ (kv : Store) (b : Nat) (s' : List Nat), b ∉ [43, 45, 58, 36, 42, 37] →
        sessionStep kv (b :: s') = .crashed kv) ∧
    (∀ (kv : Store) (t : List Nat), pyInt (rstripCRLF (readLine t).1) = Option.none →
        sessionStep kv (58 :: t) = .crashed kv) ∧
    (∀ (kv : Store) (t : List Nat), pyInt (rstripCRLF (readLine t).1) = Option.none →
        sessionStep kv (36 :: t) = .crashed kv) ∧
    (∀ (kv : Store) (t : List Nat), pyInt (rstripCRLF (readLine t).1) = Option.none →
        sessionStep kv (42 :: t) = .crashed kv) ∧
    (∀ (kv : Store) (t : List Nat), pyInt (rstripCRLF (readLine t).1) = Option.none →
        sessionStep kv (37 :: t) = .crashed kv) ∧
    (∀ (kv kv' : Store) (s : List Nat) (data : Value) (rest m : List Nat),
        decode s = .ok (data, rest) →
        get_response kv data = (kv', .error (.commandError m)) →
        sessionStep kv s = .responded kv' (encodeVal (.err m)) rest) := by
  refine ⟨?_, ?_, ?_, ?_, ?_, ?_⟩
  · intro kv b s' hb
    have h43 : ¬ b = 43 := fun hh => hb (by simp [hh])
    have h45 : ¬ b = 45 := fun hh => hb (by simp [hh])
    have h58 : ¬ b = 58 := fun hh => hb (by simp [hh])
    have h36 : ¬ b = 36 := fun hh => hb (by simp [hh])
    have h42 : ¬ b = 42 := fun hh => hb (by simp [hh])
    have h37 : ¬ b = 37 := fun hh => hb (by simp [hh])
    have hd : decode (b :: s') = .error (.commandError (ascii ("bad request"))) := by
      unfold decode
      simp only [List.length_cons]
      simp only [decodeF]
      rw [if_neg h43, if_neg h45, if_neg h58, if_neg h36, if_neg h42, if_neg h37]
    exact sessionStep_crashed_decode kv _ _ hd (by simp)
  · intro kv t hpi
    have hd : decode (58 :: t) = .error .valueError := by
      unfold decode
      simp only [List.length_cons]
      simp only [decodeF, eq_false (by decide : ¬ (58 : Nat) = 43),
        eq_false (by decide : ¬ (58 : Nat) = 45), eq_true (rfl : (58 : Nat) = 58),
        if_false, if_true]
      rw [hpi]
    exact sessionStep_crashed_decode kv _ _ hd (by simp)
  · intro kv t hpi
    have hd : decode (36 :: t) = .error .valueError := by
      unfold decode
      simp only [List.length_cons]
      simp only [decodeF, eq_false (by decide : ¬ (36 : Nat) = 43),
        eq_false (by decide : ¬ (36 : Nat) = 45), eq_false (by decide : ¬ (36 : Nat) = 58),
        eq_true (rfl : (36 : Nat) = 36), if_false, if_true]
      rw [hpi]
    exact sessionStep_crashed_decode kv _ _ hd (by simp)
  · intro kv t hpi
    have hd : decode (42 :: t) = .error .valueError := by
      unfold decode
      simp only [List.length_cons]
      simp only [decodeF, eq_false (by decide : ¬ (42 : Nat) = 43),
        eq_false (by decide : ¬ (42 : Nat) = 45), eq_false (by decide : ¬ (42 : Nat) = 58),
        eq_false (by decide : ¬ (42 : Nat) = 36), eq_true (rfl : (42 : Nat) = 42),
        if_false, if_true]
      rw [hpi]
    exact sessionStep_crashed_decode kv _ _ hd (by simp)
  · intro kv t hpi
    have hd : decode (37 :: t) = .error .valueError := by
      unfold decode
      simp only [List.length_cons]
      simp only [decodeF, eq_false (by decide : ¬ (37 : Nat) = 43),
        eq_false (by decide : ¬ (37 : Nat) = 45), eq_false (by decide : ¬ (37 : Nat) = 58),
        eq_false (by decide : ¬ (37 : Nat) = 36), eq_false (by decide : ¬ (37 : Nat) = 42),
        eq_true (rfl : (37 : Nat) = 37), if_false, if_true]
      rw [hpi]
    exact sessionStep_crashed_decode kv _ _ hd (by simp)
  · intro kv kv' s data rest m h1 h2
    exact sessionStep_responded_err kv kv' s data m rest h1 h2

/-- Witness for C3: an @ tag and a non-numeric line after each of the four
integer-expecting tags crash the session with no output; an empty-array
request is answered with a caught command-error. -/
theorem c3_malformed_uncaught_witness :
    sessionStep [] [64, 1, 2] = .crashed [] ∧
    sessionStep [] [58, 97, 98, 13, 10] = .crashed [] ∧
    sessionStep [] [36, 120, 13, 10] = .crashed [] ∧
    sessionStep [] [42, 120, 13, 10] = .crashed [] ∧
    sessionStep [] [37, 120, 13, 10] = .crashed [] ∧
    sessionStep [] (encodeVal (.list []))
      = .responded [] (encodeVal (.err (ascii ("Missing command")))) [] :=
  ⟨c3_malformed_uncaught.1 [] 64 [1, 2] (by decide),
   c3_malformed_uncaught.2.1 [] [97, 98, 13, 10] (by decide),
   c3_malformed_uncaught.2.2.1 [] [120, 13, 10] (by decide),
   c3_malformed_uncaught.2.2.2.1 [] [120, 13, 10] (by decide),
   c3_malformed_uncaught.2.2.2.2.1 [] [120, 13, 10] (by decide),
   c3_malformed_uncaught.2.2.2.2.2 [] [] (encodeVal (.list [])) (.list []) [] _
     (by decide) (by decide)⟩

/-- Claim C4, counterexample: a $ frame declaring length 1 followed by the
3-byte payload abc does not raise a malformed-frame condition; the decoder
strips the last two of the three read bytes unchecked, the request decodes to
the string a, and the session writes a Command-not-found response — directly
contradicting that the connection terminates with no response written. -/
theorem c4_lengthcheck_counterexample :
    sessionStep [] [36, 49, 13, 10, 97, 98, 99, 13, 10]
      = .responded [] (encodeVal (.err (ascii ("Command not found: A")))) [13, 10] := by
  decide

/-- Claim C4 (amended): a $ frame's declared length is not validated against
the payload.  handle_string reads length+2 bytes and strips the final two
without checking that they are the CRLF terminator, so decoding succeeds for
every byte sequence of that size; leftover bytes are left in the stream for
the next frame. -/
theorem c4_lengthcheck_amended (L : Nat) (bs rest : List Nat) (h : bs.length = L + 2) :
    decode (36 :: (natDigits L ++ (13 :: 10 :: (bs ++ rest))))
      = .ok (bulkOfBytes (bs.take L), rest) := by
  unfold decode
  simp only [List.length_cons]
  simp only [decodeF, eq_false (by decide : ¬ (36 : Nat) = 43),
    eq_false (by decide : ¬ (36 : Nat) = 45), eq_false (by decide : ¬ (36 : Nat) = 58),
    eq_true (rfl : (36 : Nat) = 36), if_false, if_true]
  have hline := lineFrame (natDigits L) (bs ++ rest) (natDigits_no10 _)
  have hstrip := rstripFrame (natDigits L) (natDigits_no10 _) (natDigits_last13 _)
  simp only [hline, hstrip, pyInt_natDigits]
  rw [if_neg (by omega : ¬ (L : Int) = -1)]
  simp only [pyRead]
  rw [if_neg (by omega : ¬ (L : Int) + 2 < 0)]
  have htn : ((L : Int) + 2).toNat = bs.length := by omega
  rw [htn]
  rw [List.take_left' rfl, List.drop_left' rfl]
  dsimp only
  have hsub : bs.length - 2 = L := by omega
  rw [hsub]
  unfold bulkOfBytes
  cases h2 : utf8Decode (bs.take L) with
  | none => rfl
  | some t => rfl

/-- Witness for C4: declared length 1 with payload abc decodes to the string
a, with the terminator bytes never checked. -/
theorem c4_lengthcheck_amended_witness :
    ([97, 98, 99] : List Nat).length = 1 + 2 ∧
      decode (36 :: (natDigits 1 ++ (13 :: 10 :: (([97, 98, 99] : List Nat) ++ []))))
        = .ok (bulkOfBytes (([97, 98, 99] : List Nat).take 1), []) :=
  ⟨by decide, c4_lengthcheck_amended 1 [97, 98, 99] [] (by decide)⟩

/-- Claim C5: a request whose command token does not resolve in the command
table after upper-casing is answered with an ErrorValue whose message is
exactly Command not found: followed by the upper-cased name; the store is
returned unchanged and the session keeps running on the remaining stream. -/
theorem c5_unknown_command (kv : Store) (s : List Nat) (data c0 : Value)
    (args : List Value) (nm rest : List Nat) (h1 : decode s = .ok (data, rest))
    (h2 : tokenize data = .ok (c0 :: args)) (h3 : cmdName c0 = .ok nm)
    (h4 : pyUpper nm ∉ commandNames) :
    sessionStep kv s
      = .responded kv (encodeVal (.err (ascii ("Command not found: ") ++ pyUpper nm))) rest := by
  apply sessionStep_responded_err kv kv s data _ rest h1
  rw [get_response_tokens kv data c0 args nm h2 h3, runCmd_not_found _ _ _ h4]

/-- Witness for C5 at the request FOO (lower-case on the wire). -/
theorem c5_unknown_command_witness :
    decode (encodeVal (.list [.str [102, 111, 111]]))
        = .ok (.list [.str [102, 111, 111]], []) ∧
      sessionStep [] (encodeVal (.list [.str [102, 111, 111]]))
        = .responded []
            (encodeVal (.err (ascii ("Command not found: ") ++ pyUpper [102, 111, 111]))) [] :=
  ⟨by decide,
   c5_unknown_command [] _ (.list [.str [102, 111, 111]]) (.str [102, 111, 111]) [] _ []
     (by decide) (by decide) (by decide) (by decide)⟩

/-- Claim C6: an MSET request with an odd number of arguments raises a fault
that is not a command-error (StopIteration from the dangling key, or a
TypeError on an unhashable key), so the session crashes: no response is
written, unlike the ErrorValue produced for command-errors. -/
theorem c6_mset_odd_crash (kv : Store) (s : List Nat) (data c0 : Value)
    (args : List Value) (nm rest : List Nat) (h1 : decode s = .ok (data, rest))
    (h2 : tokenize data = .ok (c0 :: args)) (h3 : cmdName c0 = .ok nm)
    (h4 : pyUpper nm = ascii ("MSET")) (h5 : args.length % 2 = 1) :
    sessionStep kv s = .crashed (cmdMset kv args).1 := by
  have hga := get_response_tokens kv data c0 args nm h2 h3
  rw [h4, runCmd_mset] at hga
  have hpair : get_response kv data = ((msetLoop kv 0 args).1, (msetLoop kv 0 args).2) := by
    rw [hga]
    unfold cmdMset
    exact Prod.mk.eta.symm
  rcases msetLoop_odd args.length args kv 0 rfl h5 with ho | ho
  · exact sessionStep_crashed_dispatch kv (msetLoop kv 0 args).1 s data rest .stopIteration h1
      (by rw [hpair, ho]) (fun m hh => PyErr.noConfusion hh)
  · exact sessionStep_crashed_dispatch kv (msetLoop kv 0 args).1 s data rest .typeError h1
      (by rw [hpair, ho]) (fun m hh => PyErr.noConfusion hh)

/-- Witness for C6 at MSET a 1 b (three arguments). -/
theorem c6_mset_odd_crash_witness :
    sessionStep [] (encodeVal (.list [.str (ascii ("MSET")), .str [97], .int 1, .str [98]]))
      = .crashed (cmdMset [] [.str [97], .int 1, .str [98]]).1 :=
  c6_mset_odd_crash [] _ (.list [.str (ascii ("MSET")), .str [97], .int 1, .str [98]])
    (.str (ascii ("MSET"))) [.str [97], .int 1, .str [98]] (ascii ("MSET")) []
    (by decide) (by decide) (by decide) (by decide) (by decide)

/-- Claim C7, counterexample: the key a is present in the store (bound to the
null value), yet DELETE returns 0, because delete reports via
pop(key, None) is not None — even though the entry is in fact removed. -/
theorem c7_delete_counterexample :
    cmdDelete [(Value.str [97], Value.none)] [Value.str [97]] = ([], .ok (Value.int 0)) ∧
      pyFindV [(Value.str [97], Value.none)] (Value.str [97]) = some Value.none :=
  ⟨by decide, by decide⟩

/-- Claim C7 (amended): DELETE(k) returns 1 exactly when k is present with a
non-null stored value, and it removes the entry whenever k is present — also
when the stored value is null, in which case it returns 0; DELETE of an
absent key returns 0 and leaves the store unchanged; after a removal the key
is gone, so GET(k) returns null and a second DELETE returns 0. -/
theorem c7_delete_amended :
    (∀ (kv : Store) (k v : Value), pyHashable k = true → pyFindV kv k = some v →
        v ≠ Value.none → cmdDelete kv [k] = (pyRemove kv k, .ok (Value.int 1))) ∧
    (∀ (kv : Store) (k : Value), pyHashable k = true → pyFindV kv k = some Value.none →
        cmdDelete kv [k] = (pyRemove kv k, .ok (Value.int 0))) ∧
    (∀ (kv : Store) (k : Value), pyHashable k = true → pyFindV kv k = Option.none →
        cmdDelete kv [k] = (kv, .ok (Value.int 0))) ∧
    (∀ (kv : Store) (k : Value), keysDistinct kv = true →
        pyFindV (pyRemove kv k) k = Option.none) ∧
    (∀ (kv : Store) (k : Value), pyHashable k = true → keysDistinct kv = true →
        cmdGet (pyRemove kv k) [k] = (pyRemove kv k, .ok Value.none)) := by
  refine ⟨?_, ?_, ?_, ?_, ?_⟩
  · intro kv k v hh hf hv
    rw [show cmdDelete kv [k]
        = if pyHashable k then
            match pyFindV kv k with
            | some v => (pyRemove kv k, .ok (.int (if v = .none then 0 else 1)))
            | Option.none => (kv, .ok (.int 0))
          else (kv, .error .typeError) from rfl]
    rw [if_pos hh, hf]
    dsimp only
    rw [if_neg hv]
  · intro kv k hh hf
    rw [show cmdDelete kv [k]
        = if pyHashable k then
            match pyFindV kv k with
            | some v => (pyRemove kv k, .ok (.int (if v = .none then 0 else 1)))
            | Option.none => (kv, .ok (.int 0))
          else (kv, .error .typeError) from rfl]
    rw [if_pos hh, hf]
    simp
  · intro kv k hh hf
    rw [show cmdDelete kv [k]
        = if pyHashable k then
            match pyFindV kv k with
            | some v => (pyRemove kv k, .ok (.int (if v = .none then 0 else 1)))
            | Option.none => (kv, .ok (.int 0))
          else (kv, .error .typeError) from rfl]
    rw [if_pos hh, hf]
  · intro kv k hkd
    exact pyFindV_pyRemove k kv hkd
  · intro kv k hh hkd
    rw [show cmdGet (pyRemove kv k) [k]
        = if pyHashable k then (pyRemove kv k, .ok (pyGetD (pyRemove kv k) k))
          else (pyRemove kv k, .error .typeError) from rfl]
    rw [if_pos hh, pyGetD_of_find_none _ _ (pyFindV_pyRemove k kv hkd)]

/-- Witness for C7: a present non-null key is deleted with result 1, absent
keys give 0, and a deleted key is gone. -/
theorem c7_delete_amended_witness :
    cmdDelete [(Value.str [97], Value.int 5)] [Value.str [97]]
        = (pyRemove [(Value.str [97], Value.int 5)] (Value.str [97]), .ok (Value.int 1)) ∧
      cmdDelete [(Value.str [97], Value.none)] [Value.str [97]]
        = (pyRemove [(Value.str [97], Value.none)] (Value.str [97]), .ok (Value.int 0)) ∧
      cmdDelete [] [Value.str [97]] = ([], .ok (Value.int 0)) ∧
      pyFindV (pyRemove [(Value.str [97], Value.int 5)] (Value.str [97])) (Value.str [97])
        = Option.none ∧
      cmdGet (pyRemove [(Value.str [97], Value.int 5)] (Value.str [97])) [Value.str [97]]
        = (pyRemove [(Value.str [97], Value.int 5)] (Value.str [97]), .ok Value.none) :=
  ⟨c7_delete_amended.1 [(Value.str [97], Value.int 5)] (Value.str [97]) (Value.int 5)
      (by decide) (by decide) (by decide),
   c7_delete_amended.2.1 [(Value.str [97], Value.none)] (Value.str [97])
      (by decide) (by decide),
   c7_delete_amended.2.2.1 [] (Value.str [97]) (by decide) (by decide),
   c7_delete_amended.2.2.2.1 [(Value.str [97], Value.int 5)] (Value.str [97]) (by decide),
   c7_delete_amended.2.2.2.2 [(Value.str [97], Value.int 5)] (Value.str [97])
      (by decide) (by decide)⟩

/-- Claim C8: with hashable keys (the only values usable as dict keys), MSET
on an even argument list writes each key/value pair left to right and returns
the number of pairs written; MGET looks up each key in order and returns the
list of stored values, null for absent keys, preserving input order. -/
theorem c8_mset_mget :
    (∀ (kv : Store) (ps : List (Value × Value)), (∀ p ∈ ps, pyHashable p.1 = true) →
        cmdMset kv (flatPairs ps) = (writePairs kv ps, .ok (.int ps.length))) ∧
    (∀ (kv : Store) (ks : List Value), (∀ x ∈ ks, pyHashable x = true) →
        cmdMget kv ks = (kv, .ok (.list (ks.map (pyGetD kv))))) := by
  constructor
  · intro kv ps hh
    unfold cmdMset
    rw [msetLoop_pairs ps kv 0 hh]
    have hz : ((0 : Nat) : Int) + (ps.length : Int) = (ps.length : Int) := by omega
    rw [hz]
  · intro kv ks hh
    unfold cmdMget
    rw [mgetLoop_ok kv ks hh]

/-- Witness for C8: the spec's example MSET(a,1,b,2) = 2 then
MGET(a,b,c) = the values 1, 2, null in order. -/
theorem c8_mset_mget_witness :
    cmdMset [] (flatPairs [(Value.str [97], Value.int 1), (Value.str [98], Value.int 2)])
        = (writePairs [] [(Value.str [97], Value.int 1), (Value.str [98], Value.int 2)],
            .ok (Value.int 2)) ∧
      cmdMget (writePairs [] [(Value.str [97], Value.int 1), (Value.str [98], Value.int 2)])
          [Value.str [97], Value.str [98], Value.str [99]]
        = (writePairs [] [(Value.str [97], Value.int 1), (Value.str [98], Value.int 2)],
            .ok (Value.list [Value.int 1, Value.int 2, Value.none])) := by
  constructor
  · have h := c8_mset_mget.1 []
      [(Value.str [97], Value.int 1), (Value.str [98], Value.int 2)] (by decide)
    rw [h]
    decide
  · have h := c8_mset_mget.2
      (writePairs [] [(Value.str [97], Value.int 1), (Value.str [98], Value.int 2)])
      [Value.str [97], Value.str [98], Value.str [99]] (by decide)
    rw [h]
    decide

/-- Claim C9: FLUSH with no arguments clears the store and returns the prior
entry count; on an empty store it returns 0. -/
theorem c9_flush :
    (∀ kv : Store, cmdFlush kv [] = ([], .ok (.int kv.length))) ∧
      cmdFlush [] [] = ([], .ok (.int 0)) :=
  ⟨fun _ => rfl, rfl⟩

/-- Claim C10: when MSET is invoked with a flat pair list followed by one
dangling key, each complete pair has already been written to the store when
StopIteration is raised: the session crashes with no response, the connection
drops, and the partially-mutated store persists. -/
theorem c10_mset_partial_write (kv : Store) (s : List Nat) (data c0 : Value)
    (ps : List (Value × Value)) (k : Value) (nm rest : List Nat)
    (h1 : decode s = .ok (data, rest))
    (h2 : tokenize data = .ok (c0 :: (flatPairs ps ++ [k])))
    (h3 : cmdName c0 = .ok nm) (h4 : pyUpper nm = ascii ("MSET"))
    (h5 : ∀ p ∈ ps, pyHashable p.1 = true) :
    sessionStep kv s = .crashed (writePairs kv ps) := by
  have hga := get_response_tokens kv data c0 (flatPairs ps ++ [k]) nm h2 h3
  rw [h4, runCmd_mset] at hga
  have hm := msetLoop_flat_odd ps k kv 0 h5
  exact sessionStep_crashed_dispatch kv (writePairs kv ps) s data rest .stopIteration h1
    (by rw [hga]; unfold cmdMset; rw [hm]) (fun m hh => PyErr.noConfusion hh)

/-- Witness for C10: MSET a 1 b crashes the session with the pair (a,1)
already written. -/
theorem c10_mset_partial_write_witness :
    sessionStep [] (encodeVal (.list [.str (ascii ("MSET")), .str [97], .int 1, .str [98]]))
      = .crashed (writePairs [] [(Value.str [97], Value.int 1)]) :=
  c10_mset_partial_write [] _ (.list [.str (ascii ("MSET")), .str [97], .int 1, .str [98]])
    (.str (ascii ("MSET"))) [(Value.str [97], Value.int 1)] (.str [98]) (ascii ("MSET")) []
    (by decide) (by decide) (by decide) (by decide) (by decide)

end MiniKV
